import Mathlib

/-!
Verification of the `pycohortflow` cohort-flow-diagram library.

The development shallowly embeds the pure computational core of the
package: the colour helpers, the text wrapper, the configuration deep
merge of `cfd_util.py`, and the node-processing / layout arithmetic of
`cfd.py` (`plot_cohort_flow_diagram`).  Python integers are modelled as
`Int`/`Nat`, Python floats as exact rationals `ℚ`, Python dictionaries of
the TOML configuration as association lists, and raised exceptions as
`Except String`.  External collaborators (`matplotlib.colors.to_hex`,
`textwrap.wrap`) are modelled by Lean functions that follow their
documented algorithms on the character repertoire this library exercises;
each such definition carries a doc comment naming the modelled fragment.
-/

deriving instance DecidableEq for Except

namespace Pycohortflow

attribute [local semireducible] Rat.add Rat.mul Rat.inv Rat.sub Rat.ofScientific

/-! ## Basic character and string helpers -/

/-- The six whitespace characters of Python `textwrap`'s `_whitespace`
table (`"\t\n\x0b\x0c\r "`), which are also the characters `str.strip`
removes from the ASCII inputs this development deals with. -/
def isPySpace (c : Char) : Bool :=
  c = ' ' || c = '\t' || c = '\n' || c = '\x0b' || c = '\x0c' || c = '\r'

/-- Models Python `str.strip()` (both-ends whitespace strip) for ASCII
text. -/
def pyStrip (s : String) : String :=
  ⟨((s.data.dropWhile isPySpace).reverse.dropWhile isPySpace).reverse⟩

/-- `leadsList p l` is true when `p` is an initial segment of `l`. -/
def leadsList : List Char → List Char → Bool
  | [], _ => true
  | _ :: _, [] => false
  | a :: p, b :: l => a = b && leadsList p l

/-- `containsSub p l` is true when `p` occurs contiguously inside `l`
(used to state what a formatted error message carries). -/
def containsSub (p : List Char) : List Char → Bool
  | [] => leadsList p []
  | l@(_ :: t) => leadsList p l || containsSub p t

/-- The value of a hexadecimal digit, upper or lower case, as Python
`int(_, 16)` reads one. -/
def hexDigitVal (c : Char) : Option Nat :=
  if 48 ≤ c.toNat ∧ c.toNat ≤ 57 then some (c.toNat - 48)
  else if 97 ≤ c.toNat ∧ c.toNat ≤ 102 then some (c.toNat - 87)
  else if 65 ≤ c.toNat ∧ c.toNat ≤ 70 then some (c.toNat - 55)
  else none

/-- The lower-case hexadecimal digit for a value `0`–`15` (the `"x"`
format code of Python prints lower case). -/
def hexDigitChar (n : Nat) : Char :=
  match n with
  | 0 => '0' | 1 => '1' | 2 => '2' | 3 => '3' | 4 => '4'
  | 5 => '5' | 6 => '6' | 7 => '7' | 8 => '8' | 9 => '9'
  | 10 => 'a' | 11 => 'b' | 12 => 'c' | 13 => 'd' | 14 => 'e'
  | _ => 'f'

/-- Models Python `int(s, 16)` on a string of hex digits; `int("", 16)`
raises, modelled as `none` (signs, underscores and surrounding blanks,
which the source never feeds it, are out of the modelled fragment). -/
def parseHexNat : List Char → Option Nat
  | [] => none
  | cs => cs.foldl (fun acc c => acc.bind fun a => (hexDigitVal c).map fun d => 16 * a + d)
      (some 0)

/-- The two lower-case hex digits of `n` for `0 ≤ n < 256`: models the
Python format code `"{:02x}"` on the channel values the library produces
(all of which lie in `0`–`255`). -/
def hex02n (n : Nat) : List Char :=
  [hexDigitChar ((n / 16) % 16), hexDigitChar (n % 16)]

/-- `"{:02x}"` on an integer channel value; negative values (unreachable
in the library's flows) are shown with a sign as Python would. -/
def hex02 (n : ℤ) : List Char :=
  if n < 0 then '-' :: hex02n (-n).toNat else hex02n n.toNat

/-! ## Colour conversion (`cfd_util.py`) -/

/-- Embeds `_hex_to_rgb` of `cfd_util.py`: strip every leading `#`
(`str.lstrip("#")`), drop the alpha pair of an 8-digit string, read the
slices `[0:2]`, `[2:4]`, `[4:6]` with `int(_, 16)`.  A slice that is
empty or holds a non-hex character raises `ValueError` in the source,
modelled as `Except.error`. -/
def hex_to_rgb (hex_color : String) : Except String (ℤ × ℤ × ℤ) :=
  let h0 := hex_color.data.dropWhile (· = '#')
  let h := if h0.length = 8 then h0.take 6 else h0
  match parseHexNat ((h.drop 0).take 2), parseHexNat ((h.drop 2).take 2),
      parseHexNat ((h.drop 4).take 2) with
  | some r, some g, some b => .ok ((r : ℤ), (g : ℤ), (b : ℤ))
  | _, _, _ => .error "ValueError: invalid literal for int() with base 16"

/-- Embeds `_rgb_to_hex` of `cfd_util.py`: `"#{:02x}{:02x}{:02x}"`. -/
def rgb_to_hex (rgb : ℤ × ℤ × ℤ) : String :=
  ⟨'#' :: (hex02 rgb.1 ++ hex02 rgb.2.1 ++ hex02 rgb.2.2)⟩

/-- Python's built-in `round` (banker's rounding, halves to the even
neighbour) on an exact rational; the source computes
`int(round(...))` on float arithmetic, modelled exactly over `ℚ`. -/
def pyRound (q : ℚ) : ℤ :=
  let f := q.floor
  let r := q - f
  if r < 1 / 2 then f
  else if 1 / 2 < r then f + 1
  else if f % 2 = 0 then f else f + 1

/-- Embeds `_interpolate_color` of `cfd_util.py`: per-channel
`int(round(s + (e - s) * t))` between two `#RRGGBB` strings. -/
def interpolate_color (start_hex end_hex : String) (t : ℚ) : Except String String := do
  let (sr, sg, sb) ← hex_to_rgb start_hex
  let (er, eg, eb) ← hex_to_rgb end_hex
  .ok (rgb_to_hex
    (pyRound ((sr : ℚ) + ((er : ℚ) - (sr : ℚ)) * t),
     pyRound ((sg : ℚ) + ((eg : ℚ) - (sg : ℚ)) * t),
     pyRound ((sb : ℚ) + ((eb : ℚ) - (sb : ℚ)) * t)))

/-- The fragment of Matplotlib's named-colour table the development
exercises (`matplotlib.colors` maps these names to exactly these hex
values). -/
def namedColors : List (String × String) :=
  [("red", "#ff0000"), ("white", "#ffffff"), ("black", "#000000"),
   ("blue", "#0000ff"), ("green", "#008000"), ("steelblue", "#4682b4")]

/-- Models `matplotlib.colors.to_hex(c, keep_alpha=False)` for string
specifications: a named colour is looked up in the table, a
`#`-prefixed spec of 3, 4, 6 or 8 hex digits is parsed (4/8 carry an
alpha channel, dropped; 3/4 digits are doubled), everything else raises
`ValueError`, modelled as `Except.error`.  The result is re-formatted
lower case through `_rgb_to_hex`'s format, as `to_hex` does. -/
def to_hex (c : String) : Except String String :=
  match namedColors.lookup c with
  | some found => .ok found
  | none =>
    if c.data.head? = some '#'
        ∧ (c.data.drop 1).all (fun ch => (hexDigitVal ch).isSome) then
      if (c.data.drop 1).length = 6 ∨ (c.data.drop 1).length = 8 then
        match parseHexNat (((c.data.drop 1).drop 0).take 2),
            parseHexNat (((c.data.drop 1).drop 2).take 2),
            parseHexNat (((c.data.drop 1).drop 4).take 2) with
        | some r, some g, some b => .ok (rgb_to_hex ((r : ℤ), (g : ℤ), (b : ℤ)))
        | _, _, _ => .error "Invalid RGBA argument"
      else if (c.data.drop 1).length = 3 ∨ (c.data.drop 1).length = 4 then
        match hexDigitVal ((c.data.drop 1).getD 0 '0'),
            hexDigitVal ((c.data.drop 1).getD 1 '0'),
            hexDigitVal ((c.data.drop 1).getD 2 '0') with
        | some r, some g, some b =>
          .ok (rgb_to_hex ((17 * r : ℤ), (17 * g : ℤ), (17 * b : ℤ)))
        | _, _, _ => .error "Invalid RGBA argument"
      else .error "Invalid RGBA argument"
    else .error "Invalid RGBA argument"

/-- Embeds `gradient_palette` of `cfd_util.py`: `n ≤ 1` returns the raw
start spec as a one-element list; otherwise both endpoints are
canonicalised with `to_hex` (whose `ValueError` propagates) and entry
`i` of `range(n)` interpolates at factor `i / (n - 1)`. -/
def gradient_palette (start_hex end_hex : String) (n : ℤ) : Except String (List String) :=
  if n ≤ 1 then .ok [start_hex]
  else do
    let s_hex ← to_hex start_hex
    let e_hex ← to_hex end_hex
    (List.range n.toNat).mapM fun (i : ℕ) =>
      interpolate_color s_hex e_hex ((i : ℚ) / ((n : ℚ) - 1))

/-- The message of the `ValueError` `resolve_color` raises when named
colours are disallowed. -/
def colorPolicyMsg (value : String) : String :=
  s!"Unsupported color '{value}' when allow_named_colors=False. Use hex colors like '#88ccff'."

/-- The message of the `ValueError` `resolve_color` raises for an
unparseable colour. -/
def invalidColorMsg (value : String) : String :=
  s!"Unsupported color '{value}'. Use hex or Matplotlib named colors. See get_matplotlib_named_colors()."

/-- Embeds `resolve_color` of `cfd_util.py`.  `none` falls back to the
default; with `allow_named_colors = false` a value that does not start
with `#` raises the policy `ValueError`; otherwise the value is
canonicalised via `to_hex`, whose failure is re-raised with the
discovery hint.  (All colour values the source passes here are strings,
so the `isinstance(value, str)` guard is always true.) -/
def resolve_color (color_value : Option String) (default_value : String)
    (allow_named_colors : Bool := true) : Except String String :=
  let value := color_value.getD default_value
  if allow_named_colors = false ∧ value.data.head? ≠ some '#' then
    .error (colorPolicyMsg value)
  else
    match to_hex value with
    | .ok h => .ok h
    | .error _ => .error (invalidColorMsg value)

/-! ## Text wrapping (`wrap_lines` of `cfd_util.py` over Python `textwrap`)

`wrap_lines` delegates to `textwrap.wrap(text, width, break_long_words=False)`
with all other options at their defaults (`replace_whitespace=True`,
`drop_whitespace=True`, `break_on_hyphens=True`, no indents, no
`max_lines`).  The external `textwrap` algorithm is modelled below for
text over spaces, the five other `_whitespace` characters, letters,
digits, punctuation and single hyphens: whitespace is first replaced by
spaces, the text is split into chunks (whitespace runs, and words further
cut after qualifying hyphens), and the chunks are filled greedily.  Tab
expansion is modelled as plain replacement (faithful for tab-free text),
and the blank-chunk test `chunk.strip() == ""` as an all-`_whitespace`
test (faithful for text without exotic Unicode whitespace). -/

/-- Models `TextWrapper._munge_whitespace`: each of the six `_whitespace`
characters becomes a space. -/
def munge (s : String) : String :=
  ⟨s.data.map fun c => if isPySpace c then ' ' else c⟩

/-- A letter in the sense of `textwrap`'s `wordsep_re` class
`[^\d\W]`, restricted to ASCII. -/
def wsLetter (c : Char) : Bool :=
  ('a' ≤ c ∧ c ≤ 'z') ∨ ('A' ≤ c ∧ c ≤ 'Z') ∨ c = '_'

/-- Whether `wordsep_re` ends a chunk after position `i` of the word
`w` (a hyphen at `i`, preceded by `letter letter` or `letter - letter`,
followed by `letter -? letter`). -/
def hyphenCut (w : List Char) (i : Nat) : Bool :=
  w.getD i '!' = '-' &&
  ((2 ≤ i && wsLetter (w.getD (i - 1) '!') && wsLetter (w.getD (i - 2) '!')) ||
   (3 ≤ i && wsLetter (w.getD (i - 1) '!') && w.getD (i - 2) '!' = '-' &&
      wsLetter (w.getD (i - 3) '!'))) &&
  (wsLetter (w.getD (i + 1) '!') &&
   (wsLetter (w.getD (i + 2) '!') ||
    (w.getD (i + 2) '!' = '-' && wsLetter (w.getD (i + 3) '!'))))

/-- Cuts a whitespace-free word at every qualifying hyphen, left to
right (the non-greedy word alternative of `wordsep_re`). -/
def hyphenSplit (w : List Char) : List (List Char) :=
  go w 0 w.length
where
  /-- Emits `w.take (i+1)` at the first cut position `i`, recursing on
  the rest; `fuel` bounds the scan by the word length. -/
  go (w : List Char) (i fuel : Nat) : List (List Char) :=
    match fuel with
    | 0 => if w.isEmpty then [] else [w]
    | fuel + 1 =>
      if hyphenCut w i then (w.take (i + 1)) :: go (w.drop (i + 1)) 0 fuel
      else go w (i + 1) fuel

/-- `dropWhile` never lengthens a list (termination measure helper). -/
theorem dropWhile_len_le (p : Char → Bool) : ∀ l : List Char, (l.dropWhile p).length ≤ l.length
  | [] => Nat.le_refl _
  | c :: cs => by
    by_cases h : p c
    · simpa [List.dropWhile, h] using Nat.le_succ_of_le (dropWhile_len_le p cs)
    · simp [List.dropWhile, h]

/-- The run scanner behind `splitChunks`; `fuel` bounds the recursion
by the text length (every step consumes the head), keeping the
definition kernel-reducible. -/
def splitChunksGo : Nat → List Char → List (List Char)
  | _, [] => []
  | 0, _ :: _ => []
  | fuel + 1, c :: cs =>
    if c = ' ' then
      (c :: cs.takeWhile (· = ' ')) :: splitChunksGo fuel (cs.dropWhile (· = ' '))
    else
      hyphenSplit (c :: cs.takeWhile (· ≠ ' ')) ++ splitChunksGo fuel (cs.dropWhile (· ≠ ' '))

/-- Models `TextWrapper._split` on munged text: maximal space runs are
chunks, maximal non-space runs are words cut by `hyphenSplit` (empty
chunks are filtered, vacuous here). -/
def splitChunks (cs : List Char) : List (List Char) :=
  splitChunksGo cs.length cs

/-- A chunk all of whose characters are `_whitespace`: models the test
`chunk.strip() == ""` of `_wrap_chunks` on the library's inputs. -/
def blankChunk (c : List Char) : Bool := c.all isPySpace

/-- The greedy inner loop of `TextWrapper._wrap_chunks`: take chunks
onto the current line while `cur_len + len(chunk) ≤ width`; returns the
line's chunks and the rest. -/
def fillLine (width : Nat) : List (List Char) → Nat → List (List Char) × List (List Char)
  | [], _ => ([], [])
  | c :: rest, curLen =>
    if curLen + c.length ≤ width then
      let (line, rem) := fillLine width rest (curLen + c.length)
      (c :: line, rem)
    else ([], c :: rest)

/-- The trailing-whitespace drop of `_wrap_chunks`
(`if cur_line and cur_line[-1].strip() == '': del cur_line[-1]`). -/
def dropTrailingBlank (cur : List (List Char)) : List (List Char) :=
  if h : cur ≠ [] then
    if blankChunk (cur.getLast h) then cur.dropLast else cur
  else cur

/-- One iteration of the body of `TextWrapper._wrap_chunks` after the
leading-whitespace drop: fill greedily, put a too-long chunk alone on an
otherwise empty line (`_handle_long_word` with `break_long_words=False`),
then drop a trailing whitespace chunk.  Returns the line's chunks and
the chunks left over. -/
def wrapStep (width : Nat) (chunks : List (List Char)) :
    List (List Char) × List (List Char) :=
  match fillLine width chunks 0 with
  | ([], r :: rs) =>
    if width < r.length then (dropTrailingBlank [r], rs)
    else ([], r :: rs)
  | ([], []) => ([], [])
  | (cur, rest) => (dropTrailingBlank cur, rest)

/-- The loop of `TextWrapper._wrap_chunks` with `break_long_words=False`,
`drop_whitespace=True`, empty indents and no `max_lines`: drop a leading
whitespace chunk once a line exists, run `wrapStep`, emit the line if
any chunks remain on it.  `fuel` starts at the chunk count; every
iteration consumes at least one chunk, so the model never exhausts it. -/
def wrapChunksGo (width : Nat) : Nat → List (List Char) → Bool → List (List Char)
  | _, [], _ => []
  | 0, _ :: _, _ => []
  | fuel + 1, c :: cs, hasLines =>
    let chunks := if hasLines && blankChunk c then cs else c :: cs
    let s := wrapStep width chunks
    if s.1.isEmpty then wrapChunksGo width fuel s.2 hasLines
    else s.1.flatten :: wrapChunksGo width fuel s.2 true

/-- Models `textwrap.wrap(text, width, break_long_words=False)` for
`width ≥ 1` (the source raises `ValueError` for `width ≤ 0`, a case
`wrap_lines`'s callers never reach). -/
def textwrapWrap (text : String) (width : Nat) : List String :=
  let chunks := splitChunks (munge text).data
  (wrapChunksGo width chunks.length chunks false).map fun l => ⟨l⟩

/-- Embeds `wrap_lines` of `cfd_util.py`: the empty string short-circuits
to `[]` (`if not text`), otherwise `textwrap.wrap` runs and an empty
result falls back to `[text]` (`wrapped or [text]`). -/
def wrap_lines (text : String) (width : Nat) : List String :=
  if text = "" then []
  else
    let wrapped := textwrapWrap text width
    if wrapped.isEmpty then [text] else wrapped

/-! ## Style configuration (`load_style_config` of `cfd_util.py`) -/

/-- The `[layout]` section of a style configuration (wrap widths are the
integers `textwrap` receives; lengths are exact rationals). -/
structure LayoutCfg where
  main_title_width : Nat
  main_text_width : Nat
  exclusion_text_width : Nat
  main_box_width : ℚ
  exclusion_box_width : ℚ
  base_gap : ℚ
  side_gap : ℚ
  top_margin : ℚ
  bottom_margin : ℚ
  x_padding : ℚ
deriving DecidableEq, Repr

/-- The `[box_geometry]` section of a style configuration. -/
structure BoxGeometryCfg where
  padding : ℚ
  title_line_height : ℚ
  body_line_height : ℚ
  title_body_gap : ℚ
  text_top_padding : ℚ
  min_main_height : ℚ
  min_exclusion_height : ℚ
  clearance : ℚ
  corner_radius : ℚ
  pad_factor : ℚ
deriving DecidableEq, Repr

/-- The `[colors]` section of a style configuration. -/
structure ColorsCfg where
  allow_named_colors : Bool
  main_start : String
  main_end : String
  exclusion_start : String
  exclusion_end : String
deriving DecidableEq, Repr

/-- The sections of the style configuration `plot_cohort_flow_diagram`
computes with (the `figure`, `text` and `lines` sections only feed the
external drawing collaborator and are outside the embedding). -/
structure StyleConfig where
  layout : LayoutCfg
  box_geometry : BoxGeometryCfg
  colors : ColorsCfg
deriving DecidableEq, Repr

/-- The hard-coded white-style fallback configuration of
`load_style_config` (`cfd_util.py`, the `config = {...}` literal), the
in-repository authority for concrete style values. -/
def defaultWhiteConfig : StyleConfig where
  layout :=
    { main_title_width := 26
      main_text_width := 34
      exclusion_text_width := 30
      main_box_width := 2.8
      exclusion_box_width := 2.6
      base_gap := 0.8
      side_gap := 1.2
      top_margin := 0.8
      bottom_margin := 0.8
      x_padding := 0.6 }
  box_geometry :=
    { padding := 0.52
      title_line_height := 0.42
      body_line_height := 0.33
      title_body_gap := 0.16
      text_top_padding := 0.24
      min_main_height := 1.6
      min_exclusion_height := 1.2
      clearance := 0.2
      corner_radius := 0.05
      pad_factor := 0.03 }
  colors :=
    { allow_named_colors := true
      main_start := "#ffffff"
      main_end := "#ffffff"
      exclusion_start := "#ffffff"
      exclusion_end := "#ffffff" }

/-! ## The configuration deep merge (`_recursive_update` of `cfd_util.py`)

TOML documents are modelled as trees of tables (association lists in
insertion order, unique keys, as `tomllib` produces) and scalars;
scalar payloads are modelled as integers, whose payload the merge never
inspects. -/

/-- A TOML configuration value: a table or a scalar. -/
inductive TomlVal where
  | scalar : Int → TomlVal
  | table : List (String × TomlVal) → TomlVal

/-- Python dictionary key lookup on an association list. -/
def dictFind : List (String × TomlVal) → String → Option TomlVal
  | [], _ => none
  | (k, v) :: rest, key => if k = key then some v else dictFind rest key

/-- Python dictionary item assignment `d[key] = val`: replace in place
when the key exists, append otherwise. -/
def dictSet : List (String × TomlVal) → String → TomlVal → List (String × TomlVal)
  | [], key, val => [(key, val)]
  | (k, v) :: rest, key, val =>
    if k = key then (k, val) :: rest else (k, v) :: dictSet rest key val

mutual
/-- Embeds `_recursive_update(default, override)` of `cfd_util.py`.  The
source iterates `override.items()` and, when the override value is a
dict AND the key exists in `default`, recurses into `default[key]`
without checking that it too is a dict; when the recursion reaches a
scalar `default`, the source's `key in default` / `default[key] = value`
raise `TypeError` on non-container scalars, modelled as `Except.error`
(a scalar override value always lands in item assignment). -/
def recursive_update : TomlVal → TomlVal → Except String TomlVal
  | dflt, .table items => recursive_update_items dflt items
  | _, .scalar _ => .error "AttributeError: scalar has no items"

/-- The loop of `_recursive_update` over the override's items. -/
def recursive_update_items : TomlVal → List (String × TomlVal) → Except String TomlVal
  | dflt, [] => .ok dflt
  | dflt, (key, val) :: rest =>
    match val, dflt with
    | .table vt, .table ditems =>
      match dictFind ditems key with
      | some dv =>
        match recursive_update dv (.table vt) with
        | .ok merged => recursive_update_items (.table (dictSet ditems key merged)) rest
        | .error e => .error e
      | none => recursive_update_items (.table (dictSet ditems key (.table vt))) rest
    | .table _, .scalar _ => .error "TypeError: argument of type int is not iterable"
    | .scalar m, .table ditems =>
      recursive_update_items (.table (dictSet ditems key (.scalar m))) rest
    | .scalar _, .scalar _ => .error "TypeError: int object does not support item assignment"
end

/-! ## Node processing and layout (`plot_cohort_flow_diagram` of `cfd.py`) -/

/-- An input cohort node: the `data` dictionaries of
`plot_cohort_flow_diagram` (absent optional keys are `none`). -/
structure CohortNode where
  N : Int
  heading : Option String := none
  description : Option String := none
  exclusion_description : Option String := none
  color : Option String := none
  color_name : Option String := none
  exclusion_color : Option String := none
  exclusion_color_name : Option String := none
deriving DecidableEq, Repr, Inhabited

/-- One element of `processed_nodes` in `plot_cohort_flow_diagram`. -/
structure ProcessedNode where
  n : Int
  excl_n : Int
  title_lines : List String
  body_lines : List String
  excl_lines : List String
  color : String
  excl_color : String
  main_h : ℚ
  excl_h : ℚ
deriving DecidableEq, Repr, Inhabited

/-- The `ValueError` message of the ordering check
(`f"Node {i} has more patients ({n_curr}) than previous step."`). -/
def orderingMsg (i : Nat) (n_curr : Int) : String :=
  s!"Node {i} has more patients ({n_curr}) than previous step."

/-- The body of the processing loop of `plot_cohort_flow_diagram`
(`cfd.py`, step 2) for the node at index `i` with previous count
`n_prev`; palette entries are read at index `i` (built with length
`len(data)`, so the access is total in every flow the source reaches). -/
def processNode (cfg : StyleConfig) (main_palette excl_palette : List String)
    (i : Nat) (n_prev : Int) (node : CohortNode) : Except String ProcessedNode :=
  let n_curr := node.N
  let n_excluded := n_prev - n_curr
  if n_excluded < 0 then .error (orderingMsg i n_curr)
  else
    let heading :=
      if pyStrip (node.heading.getD "") = "" then s!"Step {i + 1}"
      else pyStrip (node.heading.getD "")
    let desc := pyStrip (node.description.getD "")
    let excl_desc := pyStrip (node.exclusion_description.getD "Excluded")
    let title_lines := wrap_lines heading cfg.layout.main_title_width
    let body_lines :=
      s!"(n = {n_curr})" ::
        (if desc ≠ "" then "" :: wrap_lines desc cfg.layout.main_text_width else [])
    let geom := cfg.box_geometry
    let main_h_calc :=
      geom.padding + geom.title_line_height * (max 1 title_lines.length : ℕ)
        + geom.title_body_gap + geom.body_line_height * (max 1 body_lines.length : ℕ)
    let main_h := max geom.min_main_height main_h_calc
    let excl_lines :=
      wrap_lines excl_desc cfg.layout.exclusion_text_width ++ [s!"(n = {n_excluded})"]
    let excl_h_calc := geom.padding + geom.body_line_height * (max 1 excl_lines.length : ℕ)
    let excl_h := max geom.min_exclusion_height excl_h_calc
    let main_color_raw := (node.color.orElse fun _ => node.color_name).getD
      (main_palette.getD i "")
    let excl_color_raw := (node.exclusion_color.orElse fun _ => node.exclusion_color_name).getD
      (excl_palette.getD i "")
    match resolve_color (some main_color_raw) (main_palette.getD i "")
        cfg.colors.allow_named_colors with
    | .error e => .error e
    | .ok c =>
      match resolve_color (some excl_color_raw) (excl_palette.getD i "")
          cfg.colors.allow_named_colors with
      | .error e => .error e
      | .ok ec =>
        .ok { n := n_curr, excl_n := n_excluded, title_lines := title_lines,
              body_lines := body_lines, excl_lines := excl_lines,
              color := c, excl_color := ec, main_h := main_h, excl_h := excl_h }

/-- The processing loop over `enumerate(data)`; `n_prev` carries the
previous node's count (`data[i-1]["N"]`), `none` at index 0 where the
source uses `n_curr` itself. -/
def processNodesGo (cfg : StyleConfig) (mp ep : List String) :
    Nat → Option Int → List CohortNode → Except String (List ProcessedNode)
  | _, _, [] => .ok []
  | i, prevN, node :: rest =>
    match processNode cfg mp ep i (prevN.getD node.N) node with
    | .error e => .error e
    | .ok pn =>
      match processNodesGo cfg mp ep (i + 1) (some node.N) rest with
      | .error e => .error e
      | .ok pns => .ok (pn :: pns)

/-- Step 2 of `plot_cohort_flow_diagram` over the whole `data` list. -/
def processNodes (cfg : StyleConfig) (mp ep : List String)
    (data : List CohortNode) : Except String (List ProcessedNode) :=
  processNodesGo cfg mp ep 0 none data

/-- The palette selection of `plot_cohort_flow_diagram`
(`kwargs.get("main_palette") or gradient_palette(...)`): an absent or
falsy (empty) override falls through to the gradient palette. -/
def choosePalette (override : Option (List String)) (startc endc : String)
    (n : ℤ) : Except String (List String) :=
  match override with
  | some p => if p.isEmpty then gradient_palette startc endc n else .ok p
  | none => gradient_palette startc endc n

/-- The computational pipeline of `plot_cohort_flow_diagram` up to the
processed-node list: the empty-data check, both palette selections, and
the processing loop. -/
def plotProcess (cfg : StyleConfig) (main_override excl_override : Option (List String))
    (data : List CohortNode) : Except String (List ProcessedNode) :=
  if data.isEmpty then .error "data must contain at least one cohort node."
  else
    match choosePalette main_override cfg.colors.main_start cfg.colors.main_end
        (data.length : ℤ) with
    | .error e => .error e
    | .ok mp =>
      match choosePalette excl_override cfg.colors.exclusion_start cfg.colors.exclusion_end
          (data.length : ℤ) with
      | .error e => .error e
      | .ok ep => processNodes cfg mp ep data

/-- The required gap for the transition into a node (`cfd.py`, step 3):
`max(base_gap, excl_h + 2 * clearance if excl_n > 0 else 0)`. -/
def transitionGap (cfg : StyleConfig) (node : ProcessedNode) : ℚ :=
  max cfg.layout.base_gap
    (if 0 < node.excl_n then node.excl_h + 2 * cfg.box_geometry.clearance else 0)

/-- The `transition_gaps` list: one gap per node of index `i ≥ 1`. -/
def transitionGaps (cfg : StyleConfig) (nodes : List ProcessedNode) : List ℚ :=
  (nodes.drop 1).map (transitionGap cfg)

/-- The tail of `centers_y` from a previous center and node:
`prev + prev_h/2 + gap + curr_h/2` per remaining node. -/
def centersYFrom (cfg : StyleConfig) (prev : ℚ) (prevNode : ProcessedNode) :
    List ProcessedNode → List ℚ
  | [] => []
  | node :: rest =>
    let c := prev + prevNode.main_h / 2 + transitionGap cfg node + node.main_h / 2
    c :: centersYFrom cfg c node rest

/-- The `centers_y` list of `plot_cohort_flow_diagram`:
`top_margin + main_h[0]/2`, then the accumulation over the gaps. -/
def centersY (cfg : StyleConfig) : List ProcessedNode → List ℚ
  | [] => []
  | n0 :: rest =>
    let c0 := cfg.layout.top_margin + n0.main_h / 2
    c0 :: centersYFrom cfg c0 n0 rest

/-- `total_height = centers_y[-1] + main_h[-1]/2 + bottom_margin`
(defined through the last elements; `data` is never empty there). -/
def totalHeight (cfg : StyleConfig) (nodes : List ProcessedNode) : ℚ :=
  (centersY cfg nodes).getLast?.getD 0
    + (nodes.getLast?.getD default).main_h / 2 + cfg.layout.bottom_margin

/-! ## General lemmas -/

/-- `leadsList p (p ++ b)` always holds. -/
theorem leadsList_append (p b : List Char) : leadsList p (p ++ b) = true := by
  induction p with
  | nil => rfl
  | cons c cs ih => simp [leadsList, ih]

/-- An initial segment is in particular a contiguous occurrence. -/
theorem containsSub_of_leads (p l : List Char) (h : leadsList p l = true) :
    containsSub p l = true := by
  cases l with
  | nil => simpa [containsSub] using h
  | cons c cs => simp [containsSub, h]

/-- A list occurs inside any list that splices it between two others. -/
theorem containsSub_append (p a b : List Char) :
    containsSub p (a ++ p ++ b) = true := by
  induction a with
  | nil => simpa using containsSub_of_leads p (p ++ b) (leadsList_append p b)
  | cons c cs ih =>
    have : containsSub p (cs ++ (p ++ b)) = true := by simpa using ih
    simp [containsSub, this]

/-- An occurrence survives prepending. -/
theorem containsSub_append_left (p a b : List Char) (h : containsSub p b = true) :
    containsSub p (a ++ b) = true := by
  induction a with
  | nil => simpa
  | cons c cs ih => simp [containsSub, ih]

/-- Every list is an initial segment of itself. -/
theorem leadsList_refl (p : List Char) : leadsList p p = true := by
  induction p with
  | nil => rfl
  | cons c cs ih => simp [leadsList, ih]

/-- An initial segment of `l` is one of `l ++ b`. -/
theorem leadsList_mono (p l b : List Char) (h : leadsList p l = true) :
    leadsList p (l ++ b) = true := by
  induction p generalizing l with
  | nil => rfl
  | cons c cs ih =>
    cases l with
    | nil => exact absurd h (by simp [leadsList])
    | cons d ds =>
      simp only [leadsList, Bool.and_eq_true, decide_eq_true_eq] at h
      simp [leadsList, h.1, ih ds h.2]

/-- An occurrence survives appending. -/
theorem containsSub_append_right (p a b : List Char) (h : containsSub p a = true) :
    containsSub p (a ++ b) = true := by
  induction a with
  | nil =>
    cases p with
    | nil =>
      cases b with
      | nil => simpa using h
      | cons c cs => simp [containsSub, leadsList]
    | cons c cs => exact absurd h (by simp [containsSub, leadsList])
  | cons c cs ih =>
    simp only [containsSub, Bool.or_eq_true] at h
    rcases h with h | h
    · have hm := leadsList_mono _ _ b h
      simp only [List.cons_append] at hm
      simp [containsSub, hm]
    · simp [containsSub, ih h]

/-! ## C10: empty palette overrides are silently ignored -/

/-- C10: an empty (falsy) `main_palette` or `exclusion_palette` override
is silently ignored by the render pipeline, which then uses the gradient
palette built from the style's endpoint colours, exactly as when no
override is supplied; only a non-empty override list is used as the
per-node default palette. -/
theorem C10_empty_palette_override_ignored :
    (∀ (cfg : StyleConfig) (eo : Option (List String)) (data : List CohortNode),
        plotProcess cfg (some []) eo data = plotProcess cfg none eo data) ∧
    (∀ (cfg : StyleConfig) (mo : Option (List String)) (data : List CohortNode),
        plotProcess cfg mo (some []) data = plotProcess cfg mo none data) ∧
    (∀ (s e : String) (n : ℤ), choosePalette (some []) s e n = gradient_palette s e n) ∧
    (∀ (s e : String) (n : ℤ) (p : List String), p ≠ [] →
        choosePalette (some p) s e n = .ok p) := by
  refine ⟨fun cfg eo data => ?_, fun cfg mo data => ?_, fun s e n => rfl, ?_⟩
  · simp [plotProcess, choosePalette]
  · simp [plotProcess, choosePalette]
  · intro s e n p hp
    simp [choosePalette, List.isEmpty_iff, hp]

/-- Witness for C10 at a concrete non-empty override. -/
theorem C10_empty_palette_override_ignored_witness :
    choosePalette (some ["#abcdef"]) "#000000" "#ffffff" 3 = .ok ["#abcdef"] :=
  C10_empty_palette_override_ignored.2.2.2 "#000000" "#ffffff" 3 ["#abcdef"] (by decide)

/-! ## C6: `resolve_color` behaviour -/

/-- C6: `resolve_color` substitutes the default for an absent value,
raises the policy `ValueError` (whose message carries the offending
value) when named colours are disallowed and the value to resolve does
not start with `#`, otherwise canonicalises through the colour parser,
re-raising its failure as the invalid-colour `ValueError` with the
name-discovery hint; the three concrete behaviours of the spec hold. -/
theorem C6_resolve_color_behavior :
    (∀ (d : String) (a : Bool), resolve_color none d a = resolve_color (some d) d a) ∧
    (∀ v d : String, v.data.head? ≠ some '#' →
        resolve_color (some v) d false = .error (colorPolicyMsg v) ∧
        containsSub v.data (colorPolicyMsg v).data = true) ∧
    (∀ (v d : String) (a : Bool) (h : String), to_hex v = .ok h →
        a = true ∨ v.data.head? = some '#' → resolve_color (some v) d a = .ok h) ∧
    (∀ (v d : String) (a : Bool) (e : String), to_hex v = .error e →
        (a = true ∨ v.data.head? = some '#') →
        resolve_color (some v) d a = .error (invalidColorMsg v) ∧
        containsSub "get_matplotlib_named_colors()".data (invalidColorMsg v).data = true) ∧
    resolve_color none "#aabbcc" true = .ok "#aabbcc" ∧
    resolve_color (some "red") "#000000" true = .ok "#ff0000" ∧
    resolve_color (some "red") "#000000" false = .error (colorPolicyMsg "red") := by
  refine ⟨fun d a => rfl, fun v d hv => ⟨?_, ?_⟩, fun v d a h hok ha => ?_,
    fun v d a e herr ha => ⟨?_, ?_⟩, by decide, by decide, by decide⟩
  · simp [resolve_color, hv]
  · have hmsg : (colorPolicyMsg v).data =
        "Unsupported color '".data ++
          (v.data ++
            "' when allow_named_colors=False. Use hex colors like '#88ccff'.".data) := rfl
    rw [hmsg]
    exact containsSub_append_left _ _ _
      (containsSub_of_leads _ _ (leadsList_append _ _))
  · rcases ha with ha | ha
    · simp [resolve_color, ha, hok]
    · simp [resolve_color, ha, hok]
  · rcases ha with ha | ha
    · simp [resolve_color, ha, herr]
    · simp [resolve_color, ha, herr]
  · have hmsg : (invalidColorMsg v).data =
        "Unsupported color '".data ++
          (v.data ++
            "'. Use hex or Matplotlib named colors. See get_matplotlib_named_colors().".data) :=
      rfl
    rw [hmsg]
    refine containsSub_append_left _ _ _ (containsSub_append_left _ _ _ ?_)
    decide

/-- Witness for C6: the policy branch at the concrete value `"steelblue"`. -/
theorem C6_resolve_color_behavior_witness :
    resolve_color (some "steelblue") "#000000" false = .error (colorPolicyMsg "steelblue") ∧
    containsSub "steelblue".data (colorPolicyMsg "steelblue").data = true :=
  C6_resolve_color_behavior.2.1 "steelblue" "#000000" (by decide)

/-! ## C2: the ordering error -/

/-- The previous-count carry after processing `xs` on top of carry `p`. -/
def nextPrev (xs : List CohortNode) (p : Option Int) : Option Int :=
  match xs.getLast? with
  | some x => some x.N
  | none => p

/-- The processing loop splits over list append: the first error wins,
the index and previous-count carry advance over the prefix. -/
theorem processNodesGo_append (cfg : StyleConfig) (mp ep : List String) :
    ∀ (xs ys : List CohortNode) (i : Nat) (p : Option Int),
    processNodesGo cfg mp ep i p (xs ++ ys) =
      (processNodesGo cfg mp ep i p xs).bind fun pns =>
        (processNodesGo cfg mp ep (i + xs.length) (nextPrev xs p) ys).map fun pns2 =>
          pns ++ pns2
  | [], ys, i, p => by
    simp only [List.nil_append, List.length_nil, Nat.add_zero, nextPrev, List.getLast?]
    cases processNodesGo cfg mp ep i p ys with
    | error e => rfl
    | ok l => simp [processNodesGo, Except.bind, Except.map]
  | x :: xs, ys, i, p => by
    have ih := processNodesGo_append cfg mp ep xs ys (i + 1) (some x.N)
    simp only [List.cons_append, processNodesGo]
    cases processNode cfg mp ep i (p.getD x.N) x with
    | error e => rfl
    | ok pn =>
      simp only [List.append_eq]
      rw [ih]
      have hnext : nextPrev xs (some x.N) = nextPrev (x :: xs) p := by
        cases xs with
        | nil => rfl
        | cons y ys2 =>
          simp only [nextPrev, List.getLast?_cons_cons]
          cases h : (y :: ys2).getLast? with
          | some z => rfl
          | none => exact absurd h (by simp)
      have hlen : i + 1 + xs.length = i + (x :: xs).length := by
        simp [List.length_cons]; omega
      rw [hnext, hlen]
      cases processNodesGo cfg mp ep (i + 1) (some x.N) xs with
      | error e => rfl
      | ok l =>
        cases processNodesGo cfg mp ep (i + (x :: xs).length) (nextPrev (x :: xs) p) ys with
        | error e => simp [Except.bind, Except.map]
        | ok l2 => simp [Except.bind, Except.map]

/-- C2 (amended): when node `i ≥ 1` has a higher count than node `i-1`
(and the earlier nodes process cleanly), the render pipeline fails with
the ordering `ValueError` whose message names the index and carries the
current count — but not the previous count, which the source's format
string omits. -/
theorem C2_ordering_error (cfg : StyleConfig) (mo eo : Option (List String))
    (mp ep : List String) (data : List CohortNode) (i : Nat)
    (h1 : 1 ≤ i) (h2 : i < data.length)
    (hmp : choosePalette mo cfg.colors.main_start cfg.colors.main_end
      (data.length : ℤ) = .ok mp)
    (hep : choosePalette eo cfg.colors.exclusion_start cfg.colors.exclusion_end
      (data.length : ℤ) = .ok ep)
    (hpre : (processNodes cfg mp ep (data.take i)).isOk = true)
    (hgt : (data.getD (i - 1) default).N < (data.getD i default).N) :
    plotProcess cfg mo eo data = .error (orderingMsg i (data.getD i default).N) ∧
    containsSub (toString i).data (orderingMsg i (data.getD i default).N).data = true ∧
    containsSub (toString (data.getD i default).N).data
      (orderingMsg i (data.getD i default).N).data = true := by
  have hne : data ≠ [] := by
    intro h
    rw [h] at h2
    exact absurd h2 (by simp)
  refine ⟨?_, ?_, ?_⟩
  · obtain ⟨pre, hpre⟩ : ∃ pre, processNodes cfg mp ep (data.take i) = .ok pre := by
      cases h : processNodes cfg mp ep (data.take i) with
      | error e => rw [h] at hpre; exact absurd hpre (by simp [Except.isOk, Except.toBool])
      | ok l => exact ⟨l, rfl⟩
    have hsplit : data = data.take i ++ data.drop i := (List.take_append_drop i data).symm
    have hdrop : data.drop i = data.getD i default :: data.drop (i + 1) := by
      rw [List.getD_eq_getElem data default h2]
      exact List.drop_eq_getElem_cons h2
    have hlen : (data.take i).length = i := by
      rw [List.length_take]
      omega
    have hlast : (data.take i).getLast? = some (data.getD (i - 1) default) := by
      have h3 : i - 1 < data.length := by omega
      rw [List.getLast?_eq_getElem?, hlen, List.getElem?_take]
      rw [if_pos (by omega : i - 1 < i), List.getElem?_eq_getElem h3,
        List.getD_eq_getElem data default h3]
    simp only [plotProcess, List.isEmpty_iff, hne, if_neg, hmp, hep, processNodes]
    rw [show processNodesGo cfg mp ep 0 none data
        = processNodesGo cfg mp ep 0 none (data.take i ++ data.drop i) by rw [← hsplit]]
    rw [processNodesGo_append, show processNodes cfg mp ep (data.take i)
        = processNodesGo cfg mp ep 0 none (data.take i) from rfl] at *
    rw [hpre]
    simp only [Except.bind, nextPrev, hlast, hlen, Nat.zero_add, hdrop]
    have : processNode cfg mp ep i
        ((some (data.getD (i - 1) default).N).getD (data.getD i default).N)
        (data.getD i default) = .error (orderingMsg i (data.getD i default).N) := by
      simp only [Option.getD_some, processNode, if_pos (by omega :
        (data.getD (i - 1) default).N - (data.getD i default).N < 0)]
    simp only [processNodesGo, this, Except.map]
    simp
  · have hmsg : (orderingMsg i (data.getD i default).N).data =
        ((("Node ".data ++ (toString i).data) ++ " has more patients (".data)
          ++ (toString (data.getD i default).N).data) ++ ") than previous step.".data :=
      rfl
    rw [hmsg]
    refine containsSub_append_right _ _ _ (containsSub_append_right _ _ _
      (containsSub_append_right _ _ _ ?_))
    exact containsSub_append_left _ _ _ (containsSub_of_leads _ _ (leadsList_refl _))
  · have hmsg : (orderingMsg i (data.getD i default).N).data =
        ((("Node ".data ++ (toString i).data) ++ " has more patients (".data)
          ++ (toString (data.getD i default).N).data) ++ ") than previous step.".data :=
      rfl
    rw [hmsg]
    refine containsSub_append_right _ _ _ ?_
    exact containsSub_append_left _ _ _ (containsSub_of_leads _ _ (leadsList_refl _))

/-- Witness for C2 at the spec's monotonicity scenario `[50, 100]`. -/
theorem C2_ordering_error_witness :
    plotProcess defaultWhiteConfig none none [{ N := 50 }, { N := 100 }]
      = .error (orderingMsg 1 (100 : ℤ)) ∧
    containsSub (toString (1 : ℕ)).data (orderingMsg 1 (100 : ℤ)).data = true ∧
    containsSub (toString (100 : ℤ)).data (orderingMsg 1 (100 : ℤ)).data = true :=
  C2_ordering_error defaultWhiteConfig none none ["#ffffff", "#ffffff"]
    ["#ffffff", "#ffffff"] [{ N := 50 }, { N := 100 }] 1 (by decide) (by decide)
    (by decide) (by decide) (by decide) (by decide)

/-- Counterexample to C2 as stated: at `[{N:50},{N:100}]` the error
message is exactly `"Node 1 has more patients (100) than previous
step."`; it carries the index `1` and the current count `100` but not
the previous count `50`, so the error does not carry both counts. -/
theorem C2_ordering_error_cex :
    plotProcess defaultWhiteConfig none none [{ N := 50 }, { N := 100 }]
      = .error "Node 1 has more patients (100) than previous step." ∧
    containsSub "50".data "Node 1 has more patients (100) than previous step.".data
      = false := by
  constructor
  · decide
  · decide

/-! ## C8: the exclusion text lines -/

/-- The fields a successful `processNode` gives its result (the branch
conditions of the source pin them down). -/
theorem processNode_ok_fields (cfg : StyleConfig) (mp ep : List String)
    (i : Nat) (prev : Int) (node : CohortNode) (r : ProcessedNode)
    (h : processNode cfg mp ep i prev node = .ok r) :
    r.n = node.N ∧
    r.excl_n = prev - node.N ∧
    0 ≤ prev - node.N ∧
    r.excl_lines =
      wrap_lines (pyStrip (node.exclusion_description.getD "Excluded"))
        cfg.layout.exclusion_text_width ++ ["(n = " ++ toString (prev - node.N) ++ ")"] ∧
    cfg.box_geometry.min_main_height ≤ r.main_h := by
  simp only [processNode] at h
  split at h
  · exact absurd h (by simp)
  · rename_i hneg
    cases hc : resolve_color (some ((node.color.orElse fun _ => node.color_name).getD
        (mp.getD i ""))) (mp.getD i "") cfg.colors.allow_named_colors with
    | error e => rw [hc] at h; exact absurd h (by simp)
    | ok c =>
      rw [hc] at h
      cases he : resolve_color (some ((node.exclusion_color.orElse fun _ =>
          node.exclusion_color_name).getD (ep.getD i ""))) (ep.getD i "")
          cfg.colors.allow_named_colors with
      | error e => rw [he] at h; exact absurd h (by simp)
      | ok ec =>
        rw [he] at h
        simp only [Except.ok.injEq] at h
        subst h
        refine ⟨rfl, rfl, by omega, rfl, le_max_left _ _⟩

/-- A successful processing run has one output node per input node, and
each output node is the successful `processNode` of the corresponding
input at its enumerated index and previous count. -/
theorem processNodesGo_ok_get (cfg : StyleConfig) (mp ep : List String) :
    ∀ (data : List CohortNode) (ns : List ProcessedNode) (j : Nat) (p : Option Int),
    processNodesGo cfg mp ep j p data = .ok ns →
    ns.length = data.length ∧
    ∀ i, i < data.length →
      processNode cfg mp ep (j + i)
        (if i = 0 then p.getD (data.getD 0 default).N else (data.getD (i - 1) default).N)
        (data.getD i default) = .ok (ns.getD i default)
  | [], ns, j, p, h => by
    simp only [processNodesGo, Except.ok.injEq] at h
    subst h
    exact ⟨rfl, fun i hi => absurd hi (by simp)⟩
  | x :: xs, ns, j, p, h => by
    simp only [processNodesGo] at h
    cases hpn : processNode cfg mp ep j (p.getD x.N) x with
    | error e => rw [hpn] at h; exact absurd h (by simp)
    | ok pn =>
      rw [hpn] at h
      cases hgo : processNodesGo cfg mp ep (j + 1) (some x.N) xs with
      | error e => rw [hgo] at h; exact absurd h (by simp)
      | ok pns =>
        rw [hgo] at h
        simp only [Except.ok.injEq] at h
        subst h
        obtain ⟨hlen, hget⟩ := processNodesGo_ok_get cfg mp ep xs pns (j + 1) (some x.N) hgo
        refine ⟨by simp [hlen], fun i hi => ?_⟩
        cases i with
        | zero => simpa using hpn
        | succ k =>
          have hk : k < xs.length := by simpa using hi
          have := hget k hk
          have hidx : j + 1 + k = j + (k + 1) := by omega
          rw [hidx] at this
          cases k with
          | zero => simpa using this
          | succ m => simpa using this

/-- C8 (amended): each processed node's exclusion lines are
`wrap_lines` of the stripped `exclusion_description` — with the
`"Excluded"` fallback used only when the key is absent, not when it is
present and falsy — followed by the literal `"(n = {excludedCount})"`
line, where `excludedCount` is the previous count minus the node's
count (the node's own count at index 0). -/
theorem C8_exclusion_lines (cfg : StyleConfig) (mp ep : List String)
    (data : List CohortNode) (ns : List ProcessedNode) (i : Nat)
    (hok : processNodes cfg mp ep data = .ok ns) (hi : i < data.length) :
    (ns.getD i default).excl_lines =
      wrap_lines (pyStrip ((data.getD i default).exclusion_description.getD "Excluded"))
        cfg.layout.exclusion_text_width
      ++ ["(n = " ++ toString ((ns.getD i default).excl_n) ++ ")"] ∧
    (ns.getD i default).excl_n =
      (if i = 0 then (data.getD 0 default).N else (data.getD (i - 1) default).N)
        - (data.getD i default).N := by
  obtain ⟨hlen, hget⟩ := processNodesGo_ok_get cfg mp ep data ns 0 none hok
  have h := hget i hi
  rw [Nat.zero_add] at h
  have hfields := processNode_ok_fields cfg mp ep i _ _ _ h
  obtain ⟨-, hexn, -, hexl, -⟩ := hfields
  have hprev : (if i = 0 then (none : Option Int).getD (data.getD 0 default).N
      else (data.getD (i - 1) default).N) =
      (if i = 0 then (data.getD 0 default).N else (data.getD (i - 1) default).N) := by
    cases i <;> rfl
  rw [hprev] at hexn hexl
  exact ⟨by rw [hexl, hexn], hexn⟩

/-- The two-node input of the C8 witness. -/
def c8Data : List CohortNode :=
  [{ N := 100 }, { N := 80, exclusion_description := some "Not eligible" }]

/-- The processed nodes the source computes for `c8Data` under the
white fallback style and all-white palettes. -/
def c8Nodes : List ProcessedNode :=
  [{ n := 100, excl_n := 0, title_lines := ["Step 1"], body_lines := ["(n = 100)"],
     excl_lines := ["Excluded", "(n = 0)"], color := "#ffffff", excl_color := "#ffffff",
     main_h := 1.6, excl_h := 1.2 },
   { n := 80, excl_n := 20, title_lines := ["Step 2"], body_lines := ["(n = 80)"],
     excl_lines := ["Not eligible", "(n = 20)"], color := "#ffffff",
     excl_color := "#ffffff", main_h := 1.6, excl_h := 1.2 }]

/-- Witness for C8 at a node whose exclusion description is present and
non-empty (`"Not eligible"`, width 30). -/
theorem C8_exclusion_lines_witness :
    (c8Nodes.getD 1 default).excl_lines =
      wrap_lines (pyStrip ((c8Data.getD 1 default).exclusion_description.getD "Excluded"))
        defaultWhiteConfig.layout.exclusion_text_width
      ++ ["(n = " ++ toString ((c8Nodes.getD 1 default).excl_n) ++ ")"] :=
  (C8_exclusion_lines defaultWhiteConfig ["#ffffff", "#ffffff"] ["#ffffff", "#ffffff"]
    c8Data c8Nodes 1 (by decide) (by decide)).1

/-- Counterexample to C8 as stated: a present-but-empty (falsy)
`exclusion_description` does not fall back to `"Excluded"`; the
processed lines are just `["(n = 20)"]`, not `["Excluded", "(n = 20)"]`
as the claimed `exclusionDescription or "Excluded"` fallback predicts. -/
theorem C8_exclusion_lines_cex :
    ((processNodes defaultWhiteConfig ["#ffffff", "#ffffff"] ["#ffffff", "#ffffff"]
        [{ N := 100 }, { N := 80, exclusion_description := some "" }]).toOption.getD []
      |>.getD 1 default).excl_lines = ["(n = 20)"] ∧
    wrap_lines "Excluded" defaultWhiteConfig.layout.exclusion_text_width ++ ["(n = 20)"]
      = ["Excluded", "(n = 20)"] ∧
    (["(n = 20)"] : List String) ≠ ["Excluded", "(n = 20)"] := by
  refine ⟨by decide, by decide, by decide⟩

/-! ## C3 and C9: the layout arithmetic -/

/-- `centersYFrom` yields one centre per remaining node. -/
theorem centersYFrom_length (cfg : StyleConfig) :
    ∀ (rest : List ProcessedNode) (c : ℚ) (p : ProcessedNode),
    (centersYFrom cfg c p rest).length = rest.length
  | [], _, _ => rfl
  | x :: xs, c, p => by
    simp [centersYFrom, centersYFrom_length cfg xs]

/-- `centers_y` has one entry per node. -/
theorem centersY_length (cfg : StyleConfig) (nodes : List ProcessedNode) :
    (centersY cfg nodes).length = nodes.length := by
  cases nodes with
  | nil => rfl
  | cons n0 rest => simp [centersY, centersYFrom_length]

/-- The recurrence satisfied by the accumulated centres list. -/
theorem centersYFrom_getD (cfg : StyleConfig) :
    ∀ (rest : List ProcessedNode) (c : ℚ) (p : ProcessedNode) (i : Nat),
    i < rest.length →
    (c :: centersYFrom cfg c p rest).getD (i + 1) 0 =
      (c :: centersYFrom cfg c p rest).getD i 0
        + ((p :: rest).getD i default).main_h / 2
        + transitionGap cfg (rest.getD i default)
        + (rest.getD i default).main_h / 2
  | [], _, _, i, hi => absurd hi (by simp)
  | x :: xs, c, p, 0, _ => by
    simp [centersYFrom]
  | x :: xs, c, p, k + 1, hi => by
    have hk : k < xs.length := by simpa using hi
    have ih := centersYFrom_getD cfg xs
      (c + p.main_h / 2 + transitionGap cfg x + x.main_h / 2) x k hk
    simpa [centersYFrom] using ih

/-- `getD` after dropping one element shifts the index. -/
theorem getD_drop_one {α : Type} (d : α) : ∀ (l : List α) (j : Nat),
    (l.drop 1).getD j d = l.getD (j + 1) d
  | [], _ => rfl
  | _ :: _, _ => rfl

/-- `getD` through `map`, at an in-range index. -/
theorem getD_map_lt {α β : Type} (f : α → β) (d : α) (e : β) :
    ∀ (l : List α) (j : Nat), j < l.length → (l.map f).getD j e = f (l.getD j d)
  | [], j, h => absurd h (by simp)
  | _ :: _, 0, _ => rfl
  | _ :: t, j + 1, h => getD_map_lt f d e t j (by simpa using h)

/-- The last entry of a list through `getD` at `length - 1`. -/
theorem getLast?_getD_eq {α : Type} (l : List α) (d : α) (h : l ≠ []) :
    l.getLast?.getD d = l.getD (l.length - 1) d := by
  have hlen : l.length - 1 < l.length := by
    cases l with
    | nil => exact absurd rfl h
    | cons a t => simp
  rw [List.getLast?_eq_getElem?, List.getElem?_eq_getElem hlen,
    List.getD_eq_getElem l d hlen]
  rfl

/-- C3: the layout equations of `plot_cohort_flow_diagram` step 3 hold
for every processed node sequence and style configuration: the gap into
node `i ≥ 1` is `max(baseGap, exclusionBoxHeight + 2·clearance)` when
the node excludes anyone and `max(baseGap, 0)` otherwise, the first
centre is `topMargin + mainBoxHeight[0]/2`, each later centre advances
by the half-heights and the gap, and the canvas height closes the last
box with the bottom margin. -/
theorem C3_layout_equations (cfg : StyleConfig) (nodes : List ProcessedNode)
    (hne : nodes ≠ []) :
    (∀ i, 1 ≤ i → i < nodes.length →
      (transitionGaps cfg nodes).getD (i - 1) 0 =
        max cfg.layout.base_gap
          (if 0 < (nodes.getD i default).excl_n
           then (nodes.getD i default).excl_h + 2 * cfg.box_geometry.clearance
           else 0)) ∧
    (centersY cfg nodes).getD 0 0 =
      cfg.layout.top_margin + (nodes.getD 0 default).main_h / 2 ∧
    (∀ i, 1 ≤ i → i < nodes.length →
      (centersY cfg nodes).getD i 0 =
        (centersY cfg nodes).getD (i - 1) 0
          + (nodes.getD (i - 1) default).main_h / 2
          + (transitionGaps cfg nodes).getD (i - 1) 0
          + (nodes.getD i default).main_h / 2) ∧
    totalHeight cfg nodes =
      (centersY cfg nodes).getD (nodes.length - 1) 0
        + (nodes.getD (nodes.length - 1) default).main_h / 2
        + cfg.layout.bottom_margin := by
  have hgap : ∀ i, 1 ≤ i → i < nodes.length →
      (transitionGaps cfg nodes).getD (i - 1) 0 =
        transitionGap cfg (nodes.getD i default) := by
    intro i h1 h2
    have hd : i - 1 < (nodes.drop 1).length := by
      rw [List.length_drop]
      omega
    rw [transitionGaps, getD_map_lt (transitionGap cfg) default 0 _ _ hd,
      getD_drop_one, show i - 1 + 1 = i from by omega]
  obtain ⟨n0, rest, rfl⟩ : ∃ n0 rest, nodes = n0 :: rest := by
    cases nodes with
    | nil => exact absurd rfl hne
    | cons a t => exact ⟨a, t, rfl⟩
  refine ⟨hgap, rfl, fun i h1 h2 => ?_, ?_⟩
  · obtain ⟨j, rfl⟩ : ∃ j, i = j + 1 := ⟨i - 1, by omega⟩
    have hj : j < rest.length := by simpa using h2
    have hrec := centersYFrom_getD cfg rest (cfg.layout.top_margin + n0.main_h / 2) n0 j hj
    have hgapj := hgap (j + 1) (by omega) h2
    simp only [Nat.add_sub_cancel] at *
    rw [show (centersY cfg (n0 :: rest)) =
        ((cfg.layout.top_margin + n0.main_h / 2) ::
          centersYFrom cfg (cfg.layout.top_margin + n0.main_h / 2) n0 rest) from rfl]
    rw [hrec, hgapj]
    have hnod : ((n0 :: rest).getD (j + 1) default) = rest.getD j default := rfl
    rw [hnod]
  · have hcne : centersY cfg (n0 :: rest) ≠ [] := by
      simp [centersY]
    rw [totalHeight, getLast?_getD_eq _ _ hcne, getLast?_getD_eq _ _ hne,
      centersY_length]

/-- Witness input for the layout claims: the processed nodes of the
spec's three-step scenario under the white fallback style. -/
def c9Nodes : List ProcessedNode :=
  [{ n := 100, excl_n := 0, title_lines := ["Step 1"], body_lines := ["(n = 100)"],
     excl_lines := ["Excluded", "(n = 0)"], color := "#ffffff", excl_color := "#ffffff",
     main_h := 1.6, excl_h := 1.2 },
   { n := 80, excl_n := 20, title_lines := ["Step 2"], body_lines := ["(n = 80)"],
     excl_lines := ["Not eligible", "(n = 20)"], color := "#ffffff",
     excl_color := "#ffffff", main_h := 1.6, excl_h := 1.2 },
   { n := 60, excl_n := 20, title_lines := ["Step 3"], body_lines := ["(n = 60)"],
     excl_lines := ["Withdrew", "(n = 20)"], color := "#ffffff",
     excl_color := "#ffffff", main_h := 1.6, excl_h := 1.2 }]

/-- Witness for C3: the equations instantiated on the scenario's
processed nodes at index 1. -/
theorem C3_layout_equations_witness :
    (transitionGaps defaultWhiteConfig c9Nodes).getD 0 0 =
      max defaultWhiteConfig.layout.base_gap
        (if 0 < (c9Nodes.getD 1 default).excl_n
         then (c9Nodes.getD 1 default).excl_h + 2 * defaultWhiteConfig.box_geometry.clearance
         else 0) ∧
    (centersY defaultWhiteConfig c9Nodes).getD 1 0 =
      (centersY defaultWhiteConfig c9Nodes).getD 0 0
        + (c9Nodes.getD 0 default).main_h / 2
        + (transitionGaps defaultWhiteConfig c9Nodes).getD 0 0
        + (c9Nodes.getD 1 default).main_h / 2 :=
  ⟨(C3_layout_equations defaultWhiteConfig c9Nodes (by decide)).1 1 (by decide) (by decide),
   (C3_layout_equations defaultWhiteConfig c9Nodes (by decide)).2.2.1 1 (by decide)
     (by decide)⟩

/-- Every node of a successful processing run reaches its configured
minimum main-box height. -/
theorem processNodesGo_ok_main_h (cfg : StyleConfig) (mp ep : List String) :
    ∀ (data : List CohortNode) (ns : List ProcessedNode) (j : Nat) (p : Option Int),
    processNodesGo cfg mp ep j p data = .ok ns →
    ∀ x ∈ ns, cfg.box_geometry.min_main_height ≤ x.main_h
  | [], ns, j, p, h => by
    simp only [processNodesGo, Except.ok.injEq] at h
    subst h
    intro x hx
    exact absurd hx (by simp)
  | d :: ds, ns, j, p, h => by
    simp only [processNodesGo] at h
    cases hpn : processNode cfg mp ep j (p.getD d.N) d with
    | error e => rw [hpn] at h; exact absurd h (by simp)
    | ok pn =>
      rw [hpn] at h
      cases hgo : processNodesGo cfg mp ep (j + 1) (some d.N) ds with
      | error e => rw [hgo] at h; exact absurd h (by simp)
      | ok pns =>
        rw [hgo] at h
        simp only [Except.ok.injEq] at h
        subst h
        intro x hx
        rcases List.mem_cons.mp hx with rfl | hx
        · exact (processNode_ok_fields cfg mp ep j _ d x hpn).2.2.2.2
        · exact processNodesGo_ok_main_h cfg mp ep ds pns (j + 1) (some d.N) hgo x hx

/-- The strict ascent of the centres, generically over the fold. -/
theorem centersYFrom_chain (cfg : StyleConfig) (hbg : 0 < cfg.layout.base_gap) :
    ∀ (rest : List ProcessedNode) (c : ℚ) (p : ProcessedNode),
    0 < p.main_h → (∀ x ∈ rest, 0 < x.main_h) →
    List.Chain' (· < ·) (c :: centersYFrom cfg c p rest)
  | [], c, p, _, _ => by simp [centersYFrom]
  | x :: xs, c, p, hp, hall => by
    have hx : 0 < x.main_h := hall x (by simp)
    have hgap : 0 < transitionGap cfg x :=
      lt_of_lt_of_le hbg (le_max_left _ _)
    have hlt : c < c + p.main_h / 2 + transitionGap cfg x + x.main_h / 2 := by
      have h1 : 0 < p.main_h / 2 := by linarith
      have h2 : 0 < x.main_h / 2 := by linarith
      linarith
    have htail := centersYFrom_chain cfg hbg xs
      (c + p.main_h / 2 + transitionGap cfg x + x.main_h / 2) x hx
      (fun y hy => hall y (by simp [hy]))
    rw [show centersYFrom cfg c p (x :: xs) =
        (c + p.main_h / 2 + transitionGap cfg x + x.main_h / 2) ::
          centersYFrom cfg (c + p.main_h / 2 + transitionGap cfg x + x.main_h / 2) x xs
      from rfl]
    exact List.chain'_cons.mpr ⟨hlt, htail⟩

/-- C9: for every valid input (non-empty, successfully processed) and
every style configuration with positive `topMargin`, `baseGap`, minimum
box heights and per-line heights, the vertical centres produced by the
layout engine are strictly increasing with node index. -/
theorem C9_centers_strictly_increasing (cfg : StyleConfig) (mp ep : List String)
    (data : List CohortNode) (ns : List ProcessedNode)
    (hne : data ≠ []) (hok : processNodes cfg mp ep data = .ok ns)
    (htm : 0 < cfg.layout.top_margin) (hbg : 0 < cfg.layout.base_gap)
    (hmm : 0 < cfg.box_geometry.min_main_height)
    (hme : 0 < cfg.box_geometry.min_exclusion_height)
    (htl : 0 < cfg.box_geometry.title_line_height)
    (hbl : 0 < cfg.box_geometry.body_line_height) :
    List.Chain' (· < ·) (centersY cfg ns) := by
  have hall : ∀ x ∈ ns, 0 < x.main_h := fun x hx =>
    lt_of_lt_of_le hmm (processNodesGo_ok_main_h cfg mp ep data ns 0 none hok x hx)
  cases ns with
  | nil => simp [centersY]
  | cons n0 rest =>
    exact centersYFrom_chain cfg hbg rest _ n0 (hall n0 (by simp))
      (fun x hx => hall x (by simp [hx]))

/-- The scenario input of the C9 witness. -/
def c9Data : List CohortNode :=
  [{ N := 100 }, { N := 80, exclusion_description := some "Not eligible" },
   { N := 60, exclusion_description := some "Withdrew" }]

/-- Witness for C9 on the spec's scenario under the white fallback
style. -/
theorem C9_centers_strictly_increasing_witness :
    List.Chain' (· < ·) (centersY defaultWhiteConfig c9Nodes) :=
  C9_centers_strictly_increasing defaultWhiteConfig ["#ffffff", "#ffffff", "#ffffff"]
    ["#ffffff", "#ffffff", "#ffffff"] c9Data c9Nodes (by decide) (by decide)
    (by decide) (by decide) (by decide) (by decide) (by decide) (by decide)

/-! ## C7 and C4: colour conversion round trips -/

/-- The sixteen lower-case hexadecimal digit characters. -/
def lowerHexChars : List Char := "0123456789abcdef".data

/-- No lower-case hex digit is the `#` sign. -/
theorem lhex_ne_hash : ∀ c ∈ lowerHexChars, ¬(c = '#') := by decide

/-- Parsing then printing a lower-case hex digit pair is the identity. -/
theorem pair_parse_print : ∀ c1 ∈ lowerHexChars, ∀ c2 ∈ lowerHexChars,
    (parseHexNat [c1, c2]).map (fun n => hex02 (n : ℤ)) = some [c1, c2] := by decide

set_option maxRecDepth 8192 in
/-- Printing then parsing a byte value is the identity, and the printed
digits are lower-case hex digits. -/
theorem pair_print_parse : ∀ n : ℕ, n < 256 →
    parseHexNat (hex02n n) = some n ∧ ∀ c ∈ hex02n n, c ∈ lowerHexChars := by decide

/-- C7 (amended): for every **lower-case** 6-digit hex colour string
with leading `#`, converting to RGB and back is the identity.  (The
parser accepts either case but the printer emits lower case, so the
claim as stated fails on upper-case input.) -/
theorem C7_hex_roundtrip (body : List Char) (hlen : body.length = 6)
    (hhex : ∀ c ∈ body, c ∈ lowerHexChars) :
    (hex_to_rgb ⟨'#' :: body⟩).map rgb_to_hex = .ok ⟨'#' :: body⟩ := by
  rcases body with _ | ⟨a, _ | ⟨b, _ | ⟨c, _ | ⟨d, _ | ⟨e, _ | ⟨f, _ | ⟨g, t⟩⟩⟩⟩⟩⟩⟩ <;>
    simp only [List.length_nil, List.length_cons] at hlen <;> try omega
  have ha : a ∈ lowerHexChars := hhex a (by simp)
  have hb : b ∈ lowerHexChars := hhex b (by simp)
  have hc : c ∈ lowerHexChars := hhex c (by simp)
  have hd : d ∈ lowerHexChars := hhex d (by simp)
  have he : e ∈ lowerHexChars := hhex e (by simp)
  have hf : f ∈ lowerHexChars := hhex f (by simp)
  have hab := pair_parse_print a ha b hb
  have hcd := pair_parse_print c hc d hd
  have hef := pair_parse_print e he f hf
  cases hpab : parseHexNat [a, b] with
  | none => rw [hpab] at hab; exact absurd hab (by simp)
  | some vab =>
    cases hpcd : parseHexNat [c, d] with
    | none => rw [hpcd] at hcd; exact absurd hcd (by simp)
    | some vcd =>
      cases hpef : parseHexNat [e, f] with
      | none => rw [hpef] at hef; exact absurd hef (by simp)
      | some vef =>
        rw [hpab] at hab
        rw [hpcd] at hcd
        rw [hpef] at hef
        simp at hab hcd hef
        have hdrop : List.dropWhile (fun x => decide (x = '#')) ('#' :: [a, b, c, d, e, f])
            = [a, b, c, d, e, f] := by
          rw [List.dropWhile_cons_of_pos (by simp)]
          exact List.dropWhile_cons_of_neg (by simp [lhex_ne_hash a ha])
        have hrgb : hex_to_rgb ⟨'#' :: [a, b, c, d, e, f]⟩
            = .ok ((vab : ℤ), (vcd : ℤ), (vef : ℤ)) := by
          unfold hex_to_rgb
          dsimp only
          rw [hdrop]
          rw [if_neg (by simp : ¬([a, b, c, d, e, f].length = 8))]
          dsimp only [List.drop, List.take]
          rw [hpab, hpcd, hpef]
        rw [hrgb]
        simp only [Except.map, rgb_to_hex, hab, hcd, hef]
        rfl

/-- Witness for C7 at `"#1a2b3c"`, the test suite's round-trip input. -/
theorem C7_hex_roundtrip_witness :
    (hex_to_rgb ⟨'#' :: "1a2b3c".data⟩).map rgb_to_hex = .ok ⟨'#' :: "1a2b3c".data⟩ :=
  C7_hex_roundtrip "1a2b3c".data (by decide) (by decide)

/-- Counterexample to C7 as stated: the upper-case 6-digit hex string
`"#AABBCC"` parses, but the round trip returns the lower-case
`"#aabbcc"`, not the original. -/
theorem C7_hex_roundtrip_cex :
    (hex_to_rgb "#AABBCC").map rgb_to_hex = .ok "#aabbcc" ∧
    ("#aabbcc" : String) ≠ "#AABBCC" :=
  ⟨by decide, by decide⟩

/-- A hex digit's value is below 16. -/
theorem hexDigitVal_lt (c : Char) (v : ℕ) (h : hexDigitVal c = some v) : v < 16 := by
  unfold hexDigitVal at h
  split at h
  · rename_i h1
    rw [Option.some.injEq] at h
    omega
  · split at h
    · rename_i h2
      rw [Option.some.injEq] at h
      omega
    · split at h
      · rename_i h3
        rw [Option.some.injEq] at h
        omega
      · exact absurd h (by simp)

/-- A one- or two-digit hex string parses below 256. -/
theorem parse_le (l : List Char) (v : ℕ) (hlen : l.length ≤ 2)
    (h : parseHexNat l = some v) : v < 256 := by
  rcases l with _ | ⟨x, _ | ⟨y, _ | ⟨z, t⟩⟩⟩
  · exact absurd h (by simp [parseHexNat])
  · simp only [parseHexNat, List.foldl] at h
    cases hx : hexDigitVal x with
    | none => rw [hx] at h; exact absurd h (by simp [Option.bind])
    | some dx =>
      rw [hx] at h
      simp only [Option.bind, Option.map, Option.some.injEq] at h
      have := hexDigitVal_lt x dx hx
      omega
  · simp only [parseHexNat, List.foldl] at h
    cases hx : hexDigitVal x with
    | none => rw [hx] at h; exact absurd h (by simp [Option.bind])
    | some dx =>
      rw [hx] at h
      cases hy : hexDigitVal y with
      | none => rw [hy] at h; exact absurd h (by simp [Option.bind])
      | some dy =>
        rw [hy] at h
        simp only [Option.bind, Option.map, Option.some.injEq] at h
        have h1 := hexDigitVal_lt x dx hx
        have h2 := hexDigitVal_lt y dy hy
        omega
  · exact absurd hlen (by simp)

/-- The printed hex digit characters are never `#`. -/
theorem hexDigitChar_ne_hash (n : ℕ) : ¬(hexDigitChar n = '#') := by
  unfold hexDigitChar
  split <;> decide

/-- Printing a byte triple and parsing it back is the identity. -/
theorem hex_rgb_roundtrip (r g b : ℕ) (hr : r < 256) (hg : g < 256) (hb : b < 256) :
    hex_to_rgb (rgb_to_hex ((r : ℤ), (g : ℤ), (b : ℤ))) = .ok ((r : ℤ), (g : ℤ), (b : ℤ)) := by
  have hcast : ∀ m : ℕ, hex02 (m : ℤ) = hex02n m := by
    intro m
    unfold hex02
    rw [if_neg (by omega : ¬((m : ℤ) < 0)), Int.toNat_natCast]
  have hstruct : ∀ m : ℕ, hex02n m = hexDigitChar (m / 16 % 16) :: [hexDigitChar (m % 16)] :=
    fun m => rfl
  have hsl1 : ∀ x1 x2 x3 x4 x5 x6 : Char,
      ((([x1, x2, x3, x4, x5, x6] : List Char).drop 0).take 2) = [x1, x2] :=
    fun _ _ _ _ _ _ => rfl
  have hsl2 : ∀ x1 x2 x3 x4 x5 x6 : Char,
      ((([x1, x2, x3, x4, x5, x6] : List Char).drop 2).take 2) = [x3, x4] :=
    fun _ _ _ _ _ _ => rfl
  have hsl3 : ∀ x1 x2 x3 x4 x5 x6 : Char,
      ((([x1, x2, x3, x4, x5, x6] : List Char).drop 4).take 2) = [x5, x6] :=
    fun _ _ _ _ _ _ => rfl
  unfold rgb_to_hex hex_to_rgb
  dsimp only
  rw [hcast r, hcast g, hcast b, hstruct r, hstruct g, hstruct b]
  simp only [List.cons_append, List.nil_append]
  rw [List.dropWhile_cons_of_pos (by simp)]
  rw [List.dropWhile_cons_of_neg (by simp [hexDigitChar_ne_hash])]
  rw [if_neg (by simp : ¬(([hexDigitChar (r / 16 % 16), hexDigitChar (r % 16),
    hexDigitChar (g / 16 % 16), hexDigitChar (g % 16), hexDigitChar (b / 16 % 16),
    hexDigitChar (b % 16)] : List Char).length = 8))]
  rw [hsl1, hsl2, hsl3]
  have hpr := (pair_print_parse r hr).1
  have hpg := (pair_print_parse g hg).1
  have hpb := (pair_print_parse b hb).1
  rw [hstruct r] at hpr
  rw [hstruct g] at hpg
  rw [hstruct b] at hpb
  rw [hpr, hpg, hpb]

/-- Whether a string round-trips through the RGB conversion (every
canonical hex the library produces does). -/
def goodHexB (h : String) : Bool :=
  match hex_to_rgb h with
  | .ok t => rgb_to_hex t == h
  | .error _ => false

/-- Unpacking `goodHexB`. -/
theorem goodHexB_elim (h : String) (hg : goodHexB h = true) :
    ∃ t, hex_to_rgb h = .ok t ∧ rgb_to_hex t = h := by
  unfold goodHexB at hg
  cases ht : hex_to_rgb h with
  | error e => rw [ht] at hg; exact absurd hg (by simp)
  | ok t =>
    rw [ht] at hg
    exact ⟨t, rfl, by simpa using hg⟩

/-- A value found by `lookup` in a list whose values all satisfy a
check satisfies the check. -/
theorem lookup_all {β : Type} (p : β → Bool) :
    ∀ (l : List (String × β)) (s : String) (h : β),
    l.all (fun q => p q.2) = true → List.lookup s l = some h → p h = true
  | [], s, h, _, hl => absurd hl (by simp [List.lookup])
  | (k, v) :: t, s, h, hall, hl => by
    simp only [List.all_cons, Bool.and_eq_true] at hall
    rw [List.lookup] at hl
    cases hsk : (s == k) with
    | true =>
      rw [hsk] at hl
      simp only [Option.some.injEq] at hl
      subst hl
      exact hall.1
    | false =>
      rw [hsk] at hl
      exact lookup_all p t s h hall.2 hl

/-- Every table entry round-trips. -/
theorem namedColors_good : namedColors.all (fun q => goodHexB q.2) = true := by decide

/-- Every canonical hex string `to_hex` returns round-trips through the
RGB conversion. -/
theorem to_hex_good (s h : String) (hok : to_hex s = .ok h) : goodHexB h = true := by
  unfold to_hex at hok
  split at hok
  · rename_i found heq
    simp only [Except.ok.injEq] at hok
    subst hok
    exact lookup_all goodHexB namedColors s found namedColors_good heq
  · split at hok
    · split at hok
      · cases hp1 : parseHexNat (((s.data.drop 1).drop 0).take 2) with
        | none => rw [hp1] at hok; exact absurd hok (by simp)
        | some r =>
          cases hp2 : parseHexNat (((s.data.drop 1).drop 2).take 2) with
          | none => rw [hp1, hp2] at hok; exact absurd hok (by simp)
          | some g2 =>
            cases hp3 : parseHexNat (((s.data.drop 1).drop 4).take 2) with
            | none => rw [hp1, hp2, hp3] at hok; exact absurd hok (by simp)
            | some b2 =>
              rw [hp1, hp2, hp3] at hok
              simp only [Except.ok.injEq] at hok
              subst hok
              have hr := parse_le _ _ (by simp [List.length_take]) hp1
              have hg := parse_le _ _ (by simp [List.length_take]) hp2
              have hb := parse_le _ _ (by simp [List.length_take]) hp3
              unfold goodHexB
              rw [hex_rgb_roundtrip r g2 b2 hr hg hb]
              simp
      · split at hok
        · cases hd1 : hexDigitVal ((s.data.drop 1).getD 0 '0') with
          | none => rw [hd1] at hok; exact absurd hok (by simp)
          | some r0 =>
            cases hd2 : hexDigitVal ((s.data.drop 1).getD 1 '0') with
            | none => rw [hd1, hd2] at hok; exact absurd hok (by simp)
            | some g0 =>
              cases hd3 : hexDigitVal ((s.data.drop 1).getD 2 '0') with
              | none => rw [hd1, hd2, hd3] at hok; exact absurd hok (by simp)
              | some b0 =>
                rw [hd1, hd2, hd3] at hok
                simp only [Except.ok.injEq] at hok
                subst hok
                have h1 := hexDigitVal_lt _ _ hd1
                have h2 := hexDigitVal_lt _ _ hd2
                have h3 := hexDigitVal_lt _ _ hd3
                have e1 : (17 * r0 : ℤ) = ((17 * r0 : ℕ) : ℤ) := by push_cast; ring
                have e2 : (17 * g0 : ℤ) = ((17 * g0 : ℕ) : ℤ) := by push_cast; ring
                have e3 : (17 * b0 : ℤ) = ((17 * b0 : ℕ) : ℤ) := by push_cast; ring
                rw [e1, e2, e3]
                unfold goodHexB
                rw [hex_rgb_roundtrip (17 * r0) (17 * g0) (17 * b0)
                  (by omega) (by omega) (by omega)]
                simp
        · exact absurd hok (by simp)
    · exact absurd hok (by simp)

/-- Python `round` is the identity on integers. -/
theorem pyRound_intCast (m : ℤ) : pyRound ((m : ℤ) : ℚ) = m := by
  unfold pyRound
  have hf : ((m : ℤ) : ℚ).floor = m := by
    have hd : ((m : ℤ) : ℚ).floor = ⌊((m : ℤ) : ℚ)⌋ := rfl
    rw [hd, Int.floor_intCast]
  rw [hf]
  norm_num

/-- Interpolating at factor 0 returns the (round-tripping) start hex. -/
theorem interpolate_start (sh eh : String) (v : ℤ × ℤ × ℤ)
    (hgs : goodHexB sh = true) (hev : hex_to_rgb eh = .ok v) :
    interpolate_color sh eh 0 = .ok sh := by
  obtain ⟨⟨sr, sg, sb⟩, hs, hround⟩ := goodHexB_elim sh hgs
  obtain ⟨er, eg, eb⟩ := v
  unfold interpolate_color
  rw [hs, hev]
  simp only [Except.bind, bind, pure]
  have h1 : ((sr : ℚ) + ((er : ℚ) - (sr : ℚ)) * 0) = ((sr : ℤ) : ℚ) := by ring
  have h2 : ((sg : ℚ) + ((eg : ℚ) - (sg : ℚ)) * 0) = ((sg : ℤ) : ℚ) := by ring
  have h3 : ((sb : ℚ) + ((eb : ℚ) - (sb : ℚ)) * 0) = ((sb : ℤ) : ℚ) := by ring
  rw [h1, h2, h3, pyRound_intCast, pyRound_intCast, pyRound_intCast, hround]

/-- Interpolating at factor 1 returns the (round-tripping) end hex. -/
theorem interpolate_end (sh eh : String) (u : ℤ × ℤ × ℤ)
    (hsu : hex_to_rgb sh = .ok u) (hge : goodHexB eh = true) :
    interpolate_color sh eh 1 = .ok eh := by
  obtain ⟨⟨er, eg, eb⟩, he, hround⟩ := goodHexB_elim eh hge
  obtain ⟨sr, sg, sb⟩ := u
  unfold interpolate_color
  rw [hsu, he]
  simp only [Except.bind, bind, pure]
  have h1 : ((sr : ℚ) + ((er : ℚ) - (sr : ℚ)) * 1) = ((er : ℤ) : ℚ) := by ring
  have h2 : ((sg : ℚ) + ((eg : ℚ) - (sg : ℚ)) * 1) = ((eg : ℤ) : ℚ) := by ring
  have h3 : ((sb : ℚ) + ((eb : ℚ) - (sb : ℚ)) * 1) = ((eb : ℤ) : ℚ) := by ring
  rw [h1, h2, h3, pyRound_intCast, pyRound_intCast, pyRound_intCast, hround]

/-- Interpolation between parseable endpoints never fails. -/
theorem interpolate_isOk (sh eh : String) (u v : ℤ × ℤ × ℤ) (t : ℚ)
    (hsu : hex_to_rgb sh = .ok u) (hev : hex_to_rgb eh = .ok v) :
    (interpolate_color sh eh t).isOk = true := by
  obtain ⟨sr, sg, sb⟩ := u
  obtain ⟨er, eg, eb⟩ := v
  unfold interpolate_color
  rw [hsu, hev]
  rfl

/-- A `mapM` over `Except` whose steps all succeed succeeds, with the
expected length and entries. -/
theorem mapM_ok_getD (f : ℕ → Except String String) :
    ∀ l : List ℕ, (∀ a ∈ l, (f a).isOk = true) →
    ∃ bs, l.mapM f = .ok bs ∧ bs.length = l.length ∧
      ∀ j, j < l.length → f (l.getD j 0) = .ok (bs.getD j "")
  | [], _ => ⟨[], rfl, rfl, fun j hj => absurd hj (by simp)⟩
  | a :: t, h => by
    have ha := h a (by simp)
    obtain ⟨b, hb⟩ : ∃ b, f a = .ok b := by
      cases hfa : f a with
      | error e =>
        rw [hfa] at ha
        exact absurd ha (by simp [Except.isOk, Except.toBool])
      | ok bb => exact ⟨bb, rfl⟩
    obtain ⟨bs, hbs, hlen, hget⟩ := mapM_ok_getD f t (fun x hx => h x (by simp [hx]))
    refine ⟨b :: bs, ?_, by simp [hlen], fun j hj => ?_⟩
    · rw [List.mapM_cons, hb, hbs]
      rfl
    · cases j with
      | zero => simpa using hb
      | succ k => exact hget k (by simpa using hj)

/-- `getD` on `List.range`. -/
theorem range_getD (m j : ℕ) (hj : j < m) : (List.range m).getD j 0 = j := by
  rw [List.getD_eq_getElem _ _ (by simpa using hj), List.getElem_range]

/-- C4 (amended): `gradient_palette` returns `[startSpec]` verbatim for
`n ≤ 1` (not canonicalised, the corrected part); for `n ≥ 2` with
parseable endpoints it succeeds with exactly `n` entries, entry `i`
being the per-channel rounded linear interpolation of the canonical
endpoint hexes at factor `i/(n-1)`, so entry `0` is the canonical start
hex and entry `n-1` the canonical end hex; and the black-to-white
midpoint at `n = 3` is `#808080`. -/
theorem C4_gradient_palette :
    (∀ (s e : String) (n : ℤ), n ≤ 1 → gradient_palette s e n = .ok [s]) ∧
    (∀ (s e : String) (n : ℤ) (sh eh : String) (l : List String),
      2 ≤ n → to_hex s = .ok sh → to_hex e = .ok eh →
      gradient_palette s e n = .ok l →
      l.length = n.toNat ∧
      (∀ i, i < n.toNat →
        interpolate_color sh eh ((i : ℚ) / ((n : ℚ) - 1)) = .ok (l.getD i "")) ∧
      l.getD 0 "" = sh ∧ l.getD (n.toNat - 1) "" = eh) ∧
    (∀ (s e : String) (n : ℤ) (sh eh : String), 2 ≤ n →
      to_hex s = .ok sh → to_hex e = .ok eh →
      (gradient_palette s e n).isOk = true) ∧
    gradient_palette "#000000" "#ffffff" 3 = .ok ["#000000", "#808080", "#ffffff"] := by
  have main : ∀ (s e : String) (n : ℤ) (sh eh : String),
      2 ≤ n → to_hex s = .ok sh → to_hex e = .ok eh →
      ∃ l, gradient_palette s e n = .ok l ∧
        l.length = n.toNat ∧
        (∀ i, i < n.toNat →
          interpolate_color sh eh ((i : ℚ) / ((n : ℚ) - 1)) = .ok (l.getD i "")) ∧
        l.getD 0 "" = sh ∧ l.getD (n.toNat - 1) "" = eh := by
    intro s e n sh eh h2 hs he
    obtain ⟨u, hsu, hsr⟩ := goodHexB_elim sh (to_hex_good s sh hs)
    obtain ⟨v, hev, her⟩ := goodHexB_elim eh (to_hex_good e eh he)
    obtain ⟨bs, hbs, hblen, hbget⟩ := mapM_ok_getD
      (fun i => interpolate_color sh eh ((i : ℚ) / ((n : ℚ) - 1)))
      (List.range n.toNat)
      (fun a _ => interpolate_isOk sh eh u v _ hsu hev)
    have hrange : (List.range n.toNat).length = n.toNat := List.length_range _
    have hgr : gradient_palette s e n = .ok bs := by
      unfold gradient_palette
      rw [if_neg (by omega), hs, he]
      exact hbs
    have hn2 : 2 ≤ n.toNat := by omega
    have hentry : ∀ i, i < n.toNat →
        interpolate_color sh eh ((i : ℚ) / ((n : ℚ) - 1)) = .ok (bs.getD i "") := by
      intro i hi
      have := hbget i (by simpa [hrange] using hi)
      rwa [range_getD n.toNat i hi] at this
    have hcastn : ((n.toNat : ℕ) : ℚ) = (n : ℚ) := by
      rw [show ((n.toNat : ℕ) : ℚ) = ((n.toNat : ℤ) : ℚ) by push_cast; ring,
        Int.toNat_of_nonneg (by omega)]
    have hne1 : (n : ℚ) - 1 ≠ 0 := by
      have : (2 : ℚ) ≤ (n : ℚ) := by exact_mod_cast h2
      linarith
    have hgood_s : goodHexB sh = true := by
      unfold goodHexB
      rw [hsu]
      simp [hsr]
    have hgood_e : goodHexB eh = true := by
      unfold goodHexB
      rw [hev]
      simp [her]
    have hfirst : bs.getD 0 "" = sh := by
      have h0 := hentry 0 (by omega)
      rw [show (((0 : ℕ) : ℚ) / ((n : ℚ) - 1)) = 0 by norm_num] at h0
      rw [interpolate_start sh eh v hgood_s hev] at h0
      simpa using h0.symm
    have hlast : bs.getD (n.toNat - 1) "" = eh := by
      have hl := hentry (n.toNat - 1) (by omega)
      have hcast1 : (((n.toNat - 1 : ℕ) : ℚ)) = (n : ℚ) - 1 := by
        rw [Nat.cast_sub (by omega : 1 ≤ n.toNat), hcastn, Nat.cast_one]
      rw [hcast1, div_self hne1] at hl
      rw [interpolate_end sh eh u hsu hgood_e] at hl
      simpa using hl.symm
    exact ⟨bs, hgr, by rw [hblen, hrange], hentry, hfirst, hlast⟩
  refine ⟨fun s e n hn => ?_, fun s e n sh eh l h2 hs he hgrad => ?_,
    fun s e n sh eh h2 hs he => ?_, by decide⟩
  · unfold gradient_palette
    rw [if_pos hn]
  · obtain ⟨l2, hl2, hrest⟩ := main s e n sh eh h2 hs he
    rw [hgrad] at hl2
    simp only [Except.ok.injEq] at hl2
    subst hl2
    exact hrest
  · obtain ⟨l2, hl2, -⟩ := main s e n sh eh h2 hs he
    rw [hl2]
    rfl

/-- Witness for C4: the black-to-white three-entry palette. -/
theorem C4_gradient_palette_witness :
    (["#000000", "#808080", "#ffffff"] : List String).length = (3 : ℤ).toNat ∧
    (∀ i, i < (3 : ℤ).toNat →
      interpolate_color "#000000" "#ffffff" ((i : ℚ) / (((3 : ℤ) : ℚ) - 1))
        = .ok ((["#000000", "#808080", "#ffffff"] : List String).getD i "")) ∧
    (["#000000", "#808080", "#ffffff"] : List String).getD 0 "" = "#000000" ∧
    (["#000000", "#808080", "#ffffff"] : List String).getD ((3 : ℤ).toNat - 1) ""
      = "#ffffff" :=
  C4_gradient_palette.2.1 "#000000" "#ffffff" 3 "#000000" "#ffffff"
    ["#000000", "#808080", "#ffffff"] (by decide) (by decide) (by decide) (by decide)

/-- Counterexample to C4 as stated: for `n = 1` the palette holds the
raw start specification (here upper case), not its canonical hex. -/
theorem C4_gradient_palette_cex :
    gradient_palette "#AABBCC" "#000000" 1 = .ok ["#AABBCC"] ∧
    to_hex "#AABBCC" = .ok "#aabbcc" ∧
    ("#AABBCC" : String) ≠ "#aabbcc" :=
  ⟨by decide, by decide, by decide⟩

/-! ## C5: text wrapping bounds -/

/-- Item assignment then lookup at the same key. -/
theorem dictFind_dictSet_self : ∀ (d : List (String × TomlVal)) (k : String) (v : TomlVal),
    dictFind (dictSet d k v) k = some v
  | [], k, v => by simp [dictSet, dictFind]
  | (k1, v1) :: rest, k, v => by
    by_cases h : k1 = k
    · simp [dictSet, dictFind, h]
    · simp [dictSet, dictFind, h, dictFind_dictSet_self rest k v]

/-- Item assignment leaves other keys alone. -/
theorem dictFind_dictSet_ne : ∀ (d : List (String × TomlVal)) (k k2 : String) (v : TomlVal),
    k2 ≠ k → dictFind (dictSet d k v) k2 = dictFind d k2
  | [], k, k2, v, hne => by
    have hne2 : ¬ k = k2 := fun h => hne h.symm
    simp [dictSet, dictFind, hne2]
  | (k1, v1) :: rest, k, k2, v, hne => by
    by_cases h : k1 = k
    · subst h
      have hne2 : ¬ k1 = k2 := fun h => hne h.symm
      simp [dictSet, dictFind, hne2]
    · simp only [dictSet, if_neg h]
      by_cases h2 : k1 = k2
      · simp [dictFind, h2]
      · simp [dictFind, h2, dictFind_dictSet_ne rest k k2 v hne]

/-- A key outside the key list looks up to nothing. -/
theorem dictFind_eq_none_of_not_mem : ∀ (d : List (String × TomlVal)) (k : String),
    k ∉ d.map Prod.fst → dictFind d k = none
  | [], _, _ => rfl
  | (k1, v1) :: rest, k, h => by
    by_cases hk : k1 = k
    · exact absurd (by simp [hk]) h
    · simp only [dictFind, if_neg hk]
      exact dictFind_eq_none_of_not_mem rest k (fun hm => h (by simp [hm]))

/-- The keys after an assignment are the old keys, plus possibly `k`. -/
theorem dictSet_keys_sub : ∀ (d : List (String × TomlVal)) (k : String) (v : TomlVal)
    (x : String), x ∈ (dictSet d k v).map Prod.fst → x ∈ d.map Prod.fst ∨ x = k
  | [], k, v, x, hx => by
    simp [dictSet] at hx
    exact Or.inr hx
  | (k1, v1) :: rest, k, v, x, hx => by
    by_cases h : k1 = k
    · simp only [dictSet, if_pos h, List.map_cons, List.mem_cons] at hx
      rcases hx with rfl | hx
      · exact Or.inl (by simp)
      · exact Or.inl (by simp [hx])
    · simp only [dictSet, if_neg h, List.map_cons, List.mem_cons] at hx
      rcases hx with rfl | hx
      · exact Or.inl (by simp)
      · rcases dictSet_keys_sub rest k v x hx with h2 | h2
        · exact Or.inl (by simp [h2])
        · exact Or.inr h2

/-- Item assignment preserves key uniqueness. -/
theorem dictSet_keys_nodup : ∀ (d : List (String × TomlVal)) (k : String) (v : TomlVal),
    (d.map Prod.fst).Nodup → ((dictSet d k v).map Prod.fst).Nodup
  | [], k, v, _ => by simp [dictSet]
  | (k1, v1) :: rest, k, v, hnd => by
    simp only [List.map_cons, List.nodup_cons] at hnd
    by_cases h : k1 = k
    · simp only [dictSet, if_pos h, List.map_cons, List.nodup_cons]
      exact hnd
    · simp only [dictSet, if_neg h, List.map_cons, List.nodup_cons]
      refine ⟨fun hmem => ?_, dictSet_keys_nodup rest k v hnd.2⟩
      rcases dictSet_keys_sub rest k v k1 hmem with h2 | h2
      · exact hnd.1 h2
      · exact h h2

/-- The per-key behaviour of a successful merge of two tables, relative
to the override's and base's lookups. -/
def mergeSpecAt (b rb : List (String × TomlVal)) (ov : Option TomlVal) (k : String) : Prop :=
  match ov with
  | none => dictFind rb k = dictFind b k
  | some v =>
    match v, dictFind b k with
    | .scalar m, _ => dictFind rb k = some (.scalar m)
    | .table _, none => dictFind rb k = some v
    | .table _, some bv => ∃ m, recursive_update bv v = .ok m ∧ dictFind rb k = some m

/-- One unfolding of the merge loop at a scalar override item. -/
theorem rui_cons_scalar (b : List (String × TomlVal)) (key : String) (m : Int)
    (rest : List (String × TomlVal)) :
    recursive_update_items (.table b) ((key, .scalar m) :: rest)
      = recursive_update_items (.table (dictSet b key (.scalar m))) rest := rfl

/-- One unfolding of the merge loop at a table override item. -/
theorem rui_cons_table (b : List (String × TomlVal)) (key : String)
    (vt rest : List (String × TomlVal)) :
    recursive_update_items (.table b) ((key, .table vt) :: rest)
      = match dictFind b key with
        | some dv =>
          match recursive_update dv (.table vt) with
          | .ok merged => recursive_update_items (.table (dictSet b key merged)) rest
          | .error e => .error e
        | none => recursive_update_items (.table (dictSet b key (.table vt))) rest := rfl

/-- The characterisation of a successful `_recursive_update` run over
the override's items, by induction on the override. -/
theorem recursive_update_items_spec (o : List (String × TomlVal)) :
    ∀ (b : List (String × TomlVal)) (r : TomlVal),
    (b.map Prod.fst).Nodup → (o.map Prod.fst).Nodup →
    recursive_update_items (.table b) o = .ok r →
    ∃ rb, r = .table rb ∧ (rb.map Prod.fst).Nodup ∧
      ∀ k : String, mergeSpecAt b rb (dictFind o k) k := by
  induction o with
  | nil =>
    intro b r hb _ hok
    simp only [recursive_update_items, Except.ok.injEq] at hok
    subst hok
    exact ⟨b, rfl, hb, fun k => by simp [mergeSpecAt, dictFind]⟩
  | cons p rest ih =>
    obtain ⟨key, val⟩ := p
    intro b r hb ho hok
    simp only [List.map_cons, List.nodup_cons] at ho
    have hkey_rest : dictFind rest key = none :=
      dictFind_eq_none_of_not_mem rest key ho.1
    have step : ∀ (b2 : List (String × TomlVal)), (b2.map Prod.fst).Nodup →
        recursive_update_items (.table b2) rest = .ok r →
        (∀ k2, k2 ≠ key → dictFind b2 k2 = dictFind b k2) →
        mergeSpecAt b b2 (some val) key →
        ∃ rb, r = .table rb ∧ (rb.map Prod.fst).Nodup ∧
          ∀ k : String, mergeSpecAt b rb (dictFind ((key, val) :: rest) k) k := by
      intro b2 hb2 hok2 hother hspec
      obtain ⟨rb, hr, hrnd, hchar⟩ := ih b2 r hb2 ho.2 hok2
      refine ⟨rb, hr, hrnd, fun k => ?_⟩
      by_cases hk : key = k
      · subst hk
        have h0 := hchar key
        rw [hkey_rest] at h0
        simp only [mergeSpecAt] at h0
        simp only [dictFind, if_pos rfl]
        revert hspec
        simp only [mergeSpecAt]
        cases val with
        | scalar m => rw [← h0]; exact id
        | table vt =>
          cases hbk : dictFind b key with
          | none => rw [← h0]; exact id
          | some bv =>
            rintro ⟨m, hm, hfound⟩
            exact ⟨m, hm, by rw [h0, hfound]⟩
      · have h0 := hchar k
        simp only [dictFind, if_neg hk]
        cases hfr : dictFind rest k with
        | none =>
          rw [hfr] at h0
          simp only [mergeSpecAt] at h0 ⊢
          rw [h0, hother k (fun h => hk h.symm)]
        | some v2 =>
          rw [hfr] at h0
          simp only [mergeSpecAt] at h0 ⊢
          rw [hother k (fun h => hk h.symm)] at h0
          exact h0
    cases val with
    | table vt =>
      rw [rui_cons_table] at hok
      cases hbk : dictFind b key with
      | some dv =>
        rw [hbk] at hok
        have hok2 : (match recursive_update dv (.table vt) with
            | Except.ok merged =>
              recursive_update_items (.table (dictSet b key merged)) rest
            | Except.error e => (Except.error e : Except String TomlVal))
            = Except.ok r := hok
        cases hru : recursive_update dv (.table vt) with
        | error e =>
          rw [hru] at hok2
          exact absurd hok2 (by simp)
        | ok merged =>
          rw [hru] at hok2
          have hok3 : recursive_update_items (.table (dictSet b key merged)) rest
              = .ok r := hok2
          refine step (dictSet b key merged) (dictSet_keys_nodup b key merged hb) hok3
            (fun k2 hk2 => dictFind_dictSet_ne b key k2 merged hk2) ?_
          simp only [mergeSpecAt, hbk]
          exact ⟨merged, hru, dictFind_dictSet_self b key merged⟩
      | none =>
        rw [hbk] at hok
        have hok2 : recursive_update_items (.table (dictSet b key (.table vt))) rest
            = .ok r := hok
        refine step (dictSet b key (.table vt)) (dictSet_keys_nodup b key _ hb) hok2
          (fun k2 hk2 => dictFind_dictSet_ne b key k2 _ hk2) ?_
        simp only [mergeSpecAt, hbk]
        exact dictFind_dictSet_self b key _
    | scalar m =>
      rw [rui_cons_scalar] at hok
      refine step (dictSet b key (.scalar m)) (dictSet_keys_nodup b key _ hb) hok
        (fun k2 hk2 => dictFind_dictSet_ne b key k2 _ hk2) ?_
      simp only [mergeSpecAt]
      exact dictFind_dictSet_self b key _

/-- C1 (amended): a successful deep merge of two tables (with unique
keys, as `tomllib` guarantees) behaves key-by-key: keys absent from the
override are untouched; a scalar override value, or any override value
at a key absent from the base, replaces the base value; an override
mapping at a key the base also holds descends recursively into the base
value — even when that value is a scalar, so the claimed
mapping-replaces-scalar case does not hold: descending into a scalar
returns it unchanged for an empty override mapping and raises
`TypeError` for a non-empty one. -/
theorem C1_recursive_update_merge (b o : List (String × TomlVal)) (r : TomlVal)
    (hb : (b.map Prod.fst).Nodup) (ho : (o.map Prod.fst).Nodup)
    (hok : recursive_update (.table b) (.table o) = .ok r) :
    (∃ rb, r = .table rb ∧ ∀ k : String, mergeSpecAt b rb (dictFind o k) k) ∧
    (∀ m : Int, recursive_update (.scalar m) (.table []) = .ok (.scalar m)) ∧
    (∀ (m : Int) (key : String) (v : TomlVal) (rest : List (String × TomlVal)),
      (recursive_update (.scalar m) (.table ((key, v) :: rest))).isOk = false) := by
  refine ⟨?_, fun m => rfl, fun m key v rest => ?_⟩
  · obtain ⟨rb, hr, -, hchar⟩ := recursive_update_items_spec o b r hb ho hok
    exact ⟨rb, hr, hchar⟩
  · cases v with
    | scalar m2 => rfl
    | table t => rfl

/-- Witness for C1 at the test suite's nested-merge example:
`{x: {y: 1, z: 2}}` merged with `{x: {z: 99}}`. -/
theorem C1_recursive_update_merge_witness :
    (∃ rb, (TomlVal.table [("x", .table [("y", .scalar 1), ("z", .scalar 99)])])
        = .table rb ∧
      ∀ k : String, mergeSpecAt [("x", .table [("y", .scalar 1), ("z", .scalar 2)])] rb
        (dictFind [("x", TomlVal.table [("z", .scalar 99)])] k) k) ∧
    (∀ m : Int, recursive_update (.scalar m) (.table []) = .ok (.scalar m)) ∧
    (∀ (m : Int) (key : String) (v : TomlVal) (rest : List (String × TomlVal)),
      (recursive_update (.scalar m) (.table ((key, v) :: rest))).isOk = false) :=
  C1_recursive_update_merge [("x", .table [("y", .scalar 1), ("z", .scalar 2)])]
    [("x", .table [("z", .scalar 99)])]
    (.table [("x", .table [("y", .scalar 1), ("z", .scalar 99)])])
    (by decide) (by decide) rfl

/-- Counterexample to C1 as stated: merging the override `{a: {}}` into
the base `{a: 1}` leaves the scalar `1` in place instead of replacing
it with the mapping `{}`, and merging `{a: {b: 2}}` into `{a: 1}`
raises `TypeError` instead of replacing the scalar. -/
theorem C1_recursive_update_merge_cex :
    recursive_update (.table [("a", .scalar 1)]) (.table [("a", .table [])])
      = .ok (.table [("a", .scalar 1)]) ∧
    TomlVal.scalar 1 ≠ TomlVal.table [] ∧
    (recursive_update (.table [("a", .scalar 1)])
        (.table [("a", .table [("b", .scalar 2)])])).isOk = false :=
  ⟨rfl, fun h => TomlVal.noConfusion h, rfl⟩

end Pycohortflow
